import Mathlib

/-!
Verification of the poc_python_thrift_parser compiler pipeline
(tokenizer.py, parser.py, code_gen.py) against its design specification.

The Python source is shallowly embedded: pure functions become Lean
functions, the tokenizer's generator loop becomes a fueled step function,
and the behaviour of the code *emitted* by the code generator is embedded
as Lean functions parameterised by the schema definition (the generator
emits one read/write method per definition whose control flow depends only
on the definition, so the semantics of the emitted method is a function of
the definition and the wire input).  The wire is modelled at the level of
the assumed runtime collaborator interface of spec section 6 (frames such
as FieldBegin/ListBegin/I32/Binary), which the spec declares external to
the core.
-/

set_option maxHeartbeats 1000000

namespace ThriftPoc

/-- Decidable equality for `Except`, used to evaluate the embedded
functions on concrete inputs. -/
instance {e a : Type} [DecidableEq e] [DecidableEq a] : DecidableEq (Except e a) := fun x y =>
  match x, y with
  | .ok u, .ok v =>
    if h : u = v then .isTrue (by rw [h]) else .isFalse (by intro hc; cases hc; exact h rfl)
  | .error u, .error v =>
    if h : u = v then .isTrue (by rw [h]) else .isFalse (by intro hc; cases hc; exact h rfl)
  | .ok _, .error _ => .isFalse (by intro hc; cases hc)
  | .error _, .ok _ => .isFalse (by intro hc; cases hc)

/-! ## Tokenizer embedding (tokenizer.py) -/

/-- TokenType enumeration from tokenizer.py. -/
inductive TokenType where
  | ENUM | UNION | STRUCT | LIST
  | BOOL | BYTE | UUID | I8 | I16 | I32 | I64 | DOUBLE | STRING | BINARY
  | REQUIRED | OPTIONAL | CONST | EXCEPTION | SERVICE | EXTENDS | TYPEDEF
  | VOID | ONEWAY | SINK
  | INT_CONST | IDENT
  | LBRACE | RBRACE | LPAREN | RPAREN | LT | GT | SEMICOLON | COMMA | COLON | EQUAL
deriving DecidableEq, Repr

/-- Pos from tokenizer.py: index into the source plus 1-based row/column. -/
structure Pos where
  idx : Nat
  row : Nat
  col : Nat
deriving DecidableEq, Repr

/-- Token from tokenizer.py.  The source calls the third field `end`,
which is reserved in Lean, so it is named `stop` here. -/
structure Token where
  tp : TokenType
  start : Pos
  stop : Pos
deriving DecidableEq, Repr

/-- The keyword table `_KEYWORDS` of tokenizer.py. -/
def KEYWORDS (w : String) : Option TokenType :=
  if w = "enum" then some .ENUM
  else if w = "union" then some .UNION
  else if w = "struct" then some .STRUCT
  else if w = "list" then some .LIST
  else if w = "bool" then some .BOOL
  else if w = "byte" then some .BYTE
  else if w = "uuid" then some .UUID
  else if w = "i8" then some .I8
  else if w = "i16" then some .I16
  else if w = "i32" then some .I32
  else if w = "i64" then some .I64
  else if w = "double" then some .DOUBLE
  else if w = "string" then some .STRING
  else if w = "binary" then some .BINARY
  else if w = "required" then some .REQUIRED
  else if w = "optional" then some .OPTIONAL
  else if w = "const" then some .CONST
  else if w = "exception" then some .EXCEPTION
  else if w = "service" then some .SERVICE
  else if w = "extends" then some .EXTENDS
  else if w = "typedef" then some .TYPEDEF
  else if w = "void" then some .VOID
  else if w = "oneway" then some .ONEWAY
  else if w = "sink" then some .SINK
  else none

/-- `_SKIP_STATEMENTS` of tokenizer.py. -/
def SKIP_STATEMENTS (w : String) : Bool :=
  w = "include" || w = "namespace"

/-- `_NOT_IMPL` of tokenizer.py. -/
def NOT_IMPL (w : String) : Bool :=
  w = "map" || w = "set" || w = "cpp_type" || w = "throws"

/-- The mutable cursor state of the `all_tokens` generator: the source
text (as a character list) and the `idx`, `row`, `col` variables. -/
structure LexState where
  src : List Char
  idx : Nat
  row : Nat
  col : Nat
deriving DecidableEq, Repr

/-- `cur_char()` of tokenizer.py returns a one-character string, or the
empty string `""` at end of input; the empty string is modelled as
`none`. -/
def curChar (st : LexState) : Option Char :=
  st.src[st.idx]?

/-- Python's `c in " \t\r\n"` where `c` is `cur_char()`.  Crucially, when
`c` is the empty string (end of input) the Python expression is **True**,
because the empty string is a substring of every string. -/
def pyWs (c : Option Char) : Bool :=
  match c with
  | none => true
  | some ch => ch = ' ' || ch = '\t' || ch = '\r' || ch = '\n'

/-- Python's `c.isdigit()` for a `cur_char()` result; `"".isdigit()` is
False. -/
def pyDigit (c : Option Char) : Bool :=
  match c with
  | none => false
  | some ch => ch.isDigit

/-- Python's `c.isalpha()` for a `cur_char()` result; `"".isalpha()` is
False. -/
def pyAlpha (c : Option Char) : Bool :=
  match c with
  | none => false
  | some ch => ch.isAlpha

/-- Whitespace as tested by `c in " \t\r\n"` when `c` is known to be a
real character. -/
def isWsChar (ch : Char) : Bool :=
  ch = ' ' || ch = '\t' || ch = '\r' || ch = '\n'

/-- One step of `advance()`: consumes one character, maintaining row and
column; a no-op once `idx` is at or past the end (the `if idx >= length:
return` branch). -/
def advance1 (st : LexState) : LexState :=
  match st.src[st.idx]? with
  | none => st
  | some ch =>
    if ch = '\n' then { st with idx := st.idx + 1, row := st.row + 1, col := 1 }
    else { st with idx := st.idx + 1, col := st.col + 1 }

/-- `advance(n)`. -/
def advanceN : Nat → LexState → LexState
  | 0, st => st
  | n+1, st => advanceN n (advance1 st)

/-- `make_pos()`. -/
def makePos (st : LexState) : Pos :=
  ⟨st.idx, st.row, st.col⟩

/-- Lexical failure modes of `all_tokens`.  The last constructor models
what actually happens on line 233 of tokenizer.py: `raise
NotImplemented(...)` calls the (non-callable) builtin `NotImplemented`
constant, so Python raises `TypeError: 'NotImplementedType' object is not
callable` — an exception that carries neither the offending identifier
nor a position. -/
inductive LexErr where
  | unterminatedComment (p : Pos)
  | badAnnotName (p : Pos)
  | invalidIntegerLiteral (p : Pos)
  | unexpectedCharacter (c : Char) (p : Pos)
  | typeErrorNotImplementedCall
deriving DecidableEq, Repr

/-- Result of one of the tokenizer's inner while-loops. -/
inductive LoopRes where
  | ok (st : LexState)
  | fail (e : LexErr)
  | noFuel
deriving DecidableEq, Repr

/-- `while idx < length and src[idx] != "\n": advance()`. -/
def skipLineLoop : Nat → LexState → LoopRes
  | 0, _ => .noFuel
  | n+1, st =>
    match st.src[st.idx]? with
    | none => .ok st
    | some ch => if ch = '\n' then .ok st else skipLineLoop n (advance1 st)

/-- The `/* ... */` scan; reaching end of input without `*/` raises
`Unterminated /* comment */` (the loop's `else:` clause). -/
def skipBlockLoop : Nat → LexState → LoopRes
  | 0, _ => .noFuel
  | n+1, st =>
    match st.src[st.idx]? with
    | none => .fail (.unterminatedComment (makePos st))
    | some ch =>
      if ch = '*' && st.src[st.idx + 1]? == some '/' then .ok (advanceN 2 st)
      else skipBlockLoop n (advance1 st)

/-- `while idx < length and (src[idx].isalnum() or src[idx] == "_")`:
the annotation-name scan. -/
def annotNameLoop : Nat → LexState → LoopRes
  | 0, _ => .noFuel
  | n+1, st =>
    match st.src[st.idx]? with
    | none => .ok st
    | some ch =>
      if ch.isAlphanum || ch = '_' then annotNameLoop n (advance1 st) else .ok st

/-- `while cur_char() in " \t\r\n": advance()` — the annotation
whitespace skip.  At end of input `cur_char()` is `""`, the membership
test is True, and `advance()` does nothing, so this loop never exits. -/
def skipWsLoop : Nat → LexState → LoopRes
  | 0, _ => .noFuel
  | n+1, st => if pyWs (curChar st) then skipWsLoop n (advance1 st) else .ok st

/-- The annotation string-value scan (`"..."` with backslash escapes). -/
def annotStringLoop : Nat → LexState → LoopRes
  | 0, _ => .noFuel
  | n+1, st =>
    match st.src[st.idx]? with
    | none => .ok st
    | some ch =>
      if ch = '\\' then annotStringLoop n (advanceN 2 st)
      else if ch = '\"' then .ok (advance1 st)
      else annotStringLoop n (advance1 st)

/-- The annotation numeric-value scan: `while idx < length and
(src[idx].isdigit() or src[idx] in "+-")`. -/
def annotNumLoop : Nat → LexState → LoopRes
  | 0, _ => .noFuel
  | n+1, st =>
    match st.src[st.idx]? with
    | none => .ok st
    | some ch =>
      if ch.isDigit || ch = '+' || ch = '-' then annotNumLoop n (advance1 st) else .ok st

/-- `while idx < length and src[idx].isdigit(): advance()`. -/
def digitsLoop : Nat → LexState → LoopRes
  | 0, _ => .noFuel
  | n+1, st =>
    match st.src[st.idx]? with
    | none => .ok st
    | some ch => if ch.isDigit then digitsLoop n (advance1 st) else .ok st

/-- The identifier scan, accumulating the characters of the word. -/
def identLoop : Nat → LexState → List Char → Option (List Char × LexState)
  | 0, _, _ => none
  | n+1, st, buf =>
    match st.src[st.idx]? with
    | none => some (buf, st)
    | some ch =>
      if ch.isAlphanum || ch = '_' then identLoop n (advance1 st) (buf ++ [ch])
      else some (buf, st)

/-- The include/namespace skip: consume up to `;` (stopping early at `/`
so the outer loop handles a comment). -/
def skipStmtLoop : Nat → LexState → LoopRes
  | 0, _ => .noFuel
  | n+1, st =>
    match st.src[st.idx]? with
    | none => .ok st
    | some ch =>
      if ch = ';' then .ok st
      else if isWsChar ch then skipStmtLoop n (advance1 st)
      else if ch = '/' then .ok st
      else skipStmtLoop n (advance1 st)

/-- The punctuation table `punct_map`. -/
def punctTT (c : Char) : Option TokenType :=
  if c = '\x7b' then some .LBRACE
  else if c = '\x7d' then some .RBRACE
  else if c = '(' then some .LPAREN
  else if c = ')' then some .RPAREN
  else if c = '<' then some .LT
  else if c = '>' then some .GT
  else if c = ';' then some .SEMICOLON
  else if c = ',' then some .COMMA
  else if c = ':' then some .COLON
  else if c = '=' then some .EQUAL
  else none

/-- Result of one iteration of the `while idx < length` body of
`all_tokens`. -/
inductive StepRes where
  | tok (t : Token) (st : LexState)
  | skip (st : LexState)
  | eof
  | fail (e : LexErr)
  | noFuel
deriving DecidableEq, Repr

/-- One iteration of the main loop of `all_tokens`, translated branch by
branch from tokenizer.py lines 140-254. -/
def lexStep (fuel : Nat) (st : LexState) : StepRes :=
  match st.src[st.idx]? with
  | none => .eof
  | some c =>
    if isWsChar c then .skip (advance1 st)
    else if c = '/' && st.src[st.idx + 1]? == some '/' then
      match skipLineLoop fuel (advanceN 2 st) with
      | .ok st' => .skip st'
      | .fail e => .fail e
      | .noFuel => .noFuel
    else if c = '/' && st.src[st.idx + 1]? == some '*' then
      match skipBlockLoop fuel (advanceN 2 st) with
      | .ok st' => .skip st'
      | .fail e => .fail e
      | .noFuel => .noFuel
    else if c = '@' then
      let st1 := advance1 st
      if !(pyAlpha (curChar st1) || curChar st1 == some '_') then
        .fail (.badAnnotName (makePos st1))
      else
        match annotNameLoop fuel st1 with
        | .fail e => .fail e
        | .noFuel => .noFuel
        | .ok st2 =>
          match skipWsLoop fuel st2 with
          | .fail e => .fail e
          | .noFuel => .noFuel
          | .ok st3 =>
            if curChar st3 == some '=' then
              let st4 := advance1 st3
              match skipWsLoop fuel st4 with
              | .fail e => .fail e
              | .noFuel => .noFuel
              | .ok st5 =>
                if curChar st5 == some '\"' then
                  match annotStringLoop fuel (advance1 st5) with
                  | .ok st6 => .skip st6
                  | .fail e => .fail e
                  | .noFuel => .noFuel
                else
                  match annotNumLoop fuel st5 with
                  | .ok st6 => .skip st6
                  | .fail e => .fail e
                  | .noFuel => .noFuel
            else .skip st3
    else
      let start := makePos st
      if c.isDigit || ((c = '+' || c = '-') && pyDigit (st.src[st.idx + 1]?)) then
        let stA := if c = '+' || c = '-' then advance1 st else st
        if !(pyDigit (curChar stA)) then .fail (.invalidIntegerLiteral (makePos stA))
        else
          match digitsLoop fuel stA with
          | .ok st' => .tok ⟨.INT_CONST, start, makePos st'⟩ st'
          | .fail e => .fail e
          | .noFuel => .noFuel
      else if c.isAlpha || c = '_' then
        match identLoop fuel st [] with
        | none => .noFuel
        | some (buf, st') =>
          let word := String.mk buf
          if SKIP_STATEMENTS word then
            match skipStmtLoop fuel st' with
            | .ok st2 =>
              if curChar st2 == some ';' then .skip (advance1 st2) else .skip st2
            | .fail e => .fail e
            | .noFuel => .noFuel
          else if NOT_IMPL word then
            .fail .typeErrorNotImplementedCall
          else
            .tok ⟨(KEYWORDS word).getD .IDENT, start, makePos st'⟩ st'
      else
        match punctTT c with
        | some tt => .tok ⟨tt, start, makePos (advance1 st)⟩ (advance1 st)
        | none => .fail (.unexpectedCharacter c start)

/-- Overall outcome of exhausting the `all_tokens` generator. -/
inductive LexOut where
  | toks (ts : List Token)
  | fail (e : LexErr)
  | noFuel
deriving DecidableEq, Repr

/-- The main `while idx < length` loop of `all_tokens`, iterated under a
fuel budget. -/
def lexRun : Nat → LexState → List Token → LexOut
  | 0, _, _ => .noFuel
  | n+1, st, acc =>
    match lexStep n st with
    | .tok t st' => lexRun n st' (acc ++ [t])
    | .skip st' => lexRun n st' acc
    | .eof => .toks acc
    | .fail e => .fail e
    | .noFuel => .noFuel

/-- `list(all_tokens(src))`: run the generator to exhaustion under a fuel
budget. -/
def all_tokensF (fuel : Nat) (src : List Char) : LexOut :=
  lexRun fuel ⟨src, 0, 1, 1⟩ []

example : all_tokensF 20 "enum".data =
    .toks [⟨.ENUM, ⟨0, 1, 1⟩, ⟨4, 1, 5⟩⟩] := by decide

example : all_tokensF 40 "1: i32 x".data =
    .toks [⟨.INT_CONST, ⟨0, 1, 1⟩, ⟨1, 1, 2⟩⟩, ⟨.COLON, ⟨1, 1, 2⟩, ⟨2, 1, 3⟩⟩,
      ⟨.I32, ⟨3, 1, 4⟩, ⟨6, 1, 7⟩⟩, ⟨.IDENT, ⟨7, 1, 8⟩, ⟨8, 1, 9⟩⟩] := by decide

example : all_tokensF 20 "map".data = .fail .typeErrorNotImplementedCall := by decide

example : all_tokensF 20 "+".data = .fail (.unexpectedCharacter '+' ⟨0, 1, 1⟩) := by decide

example : all_tokensF 20 "+7x".data =
    .toks [⟨.INT_CONST, ⟨0, 1, 1⟩, ⟨2, 1, 3⟩⟩, ⟨.IDENT, ⟨2, 1, 3⟩, ⟨3, 1, 4⟩⟩] := by decide

/-! ## Tokenizer facts: divergence at an annotation that ends the input,
the blacklist TypeError, and lone sign characters -/

/-- Once the cursor is at end of input, `advance()` does nothing. -/
theorem advance1_eof {st : LexState} (h : st.src[st.idx]? = none) :
    advance1 st = st := by
  simp [advance1, h]

/-- At end of input the annotation whitespace skip spins forever:
`cur_char()` is `""`, `"" in " \t\r\n"` is True, and `advance()` is a
no-op, so every finite fuel budget is exhausted. -/
theorem skipWsLoop_eof {st : LexState} (h : st.src[st.idx]? = none) :
    ∀ n, skipWsLoop n st = .noFuel := by
  intro n
  induction n with
  | zero => rfl
  | succ k ih =>
    have hc : pyWs (curChar st) = true := by simp [pyWs, curChar, h]
    simp [skipWsLoop, hc, advance1_eof h, ih]

/-- Every iteration budget for the main loop is exhausted on the source
`@a`: the annotation branch reaches the whitespace skip exactly at end of
input. -/
theorem lexStep_annotAtEOF : ∀ n, lexStep n ⟨['@', 'a'], 0, 1, 1⟩ = .noFuel := by
  intro n
  match n with
  | 0 => decide
  | 1 => decide
  | (k+2) =>
    have h1 : annotNameLoop (k+2) ⟨['@', 'a'], 1, 1, 2⟩ = .ok ⟨['@', 'a'], 2, 1, 3⟩ := by
      simp [annotNameLoop, advance1]
    have h2 : skipWsLoop (k+2) ⟨['@', 'a'], 2, 1, 3⟩ = .noFuel :=
      skipWsLoop_eof (by simp) _
    simp [lexStep, advance1, curChar, pyAlpha, h1, h2, isWsChar]

/-- On `@a` the runner exhausts every fuel budget. -/
theorem lexRun_annotAtEOF : ∀ n acc, lexRun n ⟨['@', 'a'], 0, 1, 1⟩ acc = .noFuel := by
  intro n acc
  cases n with
  | zero => rfl
  | succ m => simp [lexRun, lexStep_annotAtEOF m]

/-- Claim C4 (refuting theorem): the token generator does **not**
terminate on every input.  On the two-character source `@a` — an input
that ends immediately after an `@annotation` — `all_tokens` exhausts
every finite fuel budget instead of exhausting the input or raising a
lexical error: the annotation whitespace skip `while cur_char() in
" \t\r\n"` runs at end of input, where `cur_char()` returns `""` (which
is a member of every string) and `advance()` does nothing. -/
theorem c4_all_tokens_diverges_on_annot_at_eof :
    ∀ fuel, all_tokensF fuel ['@', 'a'] = .noFuel := by
  intro fuel
  exact lexRun_annotAtEOF fuel []

/-- Claim C5 (what actually happens): on each blacklisted identifier the
lexer aborts, but with the TypeError produced by calling the non-callable
`NotImplemented` builtin (tokenizer.py line 233), not with an
unsupported-feature error naming the identifier. -/
theorem c5_blacklist_raises_typeerror :
    all_tokensF 20 "map".data = .fail .typeErrorNotImplementedCall ∧
    all_tokensF 20 "set".data = .fail .typeErrorNotImplementedCall ∧
    all_tokensF 30 "cpp_type".data = .fail .typeErrorNotImplementedCall ∧
    all_tokensF 30 "throws".data = .fail .typeErrorNotImplementedCall := by
  refine ⟨by decide, by decide, by decide, by decide⟩

/-- Recognises a lex outcome that failed with `InvalidIntegerLiteral`
at any position. -/
def isInvalidIntFail (o : LexOut) : Bool :=
  match o with
  | .fail (.invalidIntegerLiteral _) => true
  | _ => false

/-- Claim C8 (counterexample): on the source `+` — a sign character that
begins a token and is not followed by a digit — the lexer fails with
`UnexpectedCharacter`, not with `InvalidIntegerLiteral` as the claim
states. -/
theorem c8_counterexample :
    all_tokensF 20 ['+'] = .fail (.unexpectedCharacter '+' ⟨0, 1, 1⟩) ∧
    isInvalidIntFail (all_tokensF 20 ['+']) = false := by
  refine ⟨by decide, by decide⟩

/-- The digit scan terminates whenever its fuel exceeds the remaining
input length. -/
theorem digitsLoop_ok : ∀ n st, st.src.length - st.idx < n →
    ∃ st', digitsLoop n st = .ok st' := by
  intro n
  induction n with
  | zero => intro st h; omega
  | succ m ih =>
    intro st h
    match hg : st.src[st.idx]? with
    | none => exact ⟨st, by simp [digitsLoop, hg]⟩
    | some ch =>
      by_cases hd : ch.isDigit
      · have hidx : st.idx < st.src.length := (List.getElem?_eq_some.mp hg).1
        have hrec := ih (advance1 st) (by
          simp only [advance1, hg]
          split <;> simp <;> omega)
        obtain ⟨st', hst'⟩ := hrec
        exact ⟨st', by simp [digitsLoop, hg, hd, hst']⟩
      · exact ⟨st, by simp [digitsLoop, hg, hd]⟩

/-- Claim C8 (amended): at any lexer state whose current character is a
sign `+`/`-`, if the next character is not a digit the step fails with
`UnexpectedCharacter` (the `InvalidIntegerLiteral` branch is not taken);
and if the next character is a digit, the sign is lexed together with the
following digits as a single `INT_CONST` token. -/
theorem c8_sign_behaviour (fuel : Nat) (st : LexState) (c : Char)
    (hc : st.src[st.idx]? = some c) (hsign : c = '+' ∨ c = '-') :
    (pyDigit (st.src[st.idx + 1]?) = false →
      lexStep fuel st = .fail (.unexpectedCharacter c (makePos st))) ∧
    (pyDigit (st.src[st.idx + 1]?) = true → st.src.length - st.idx < fuel →
      ∃ st', lexStep fuel st = .tok ⟨.INT_CONST, makePos st, makePos st'⟩ st') := by
  constructor
  · intro hnd
    rcases hsign with h | h <;> subst h <;>
      simp [lexStep, hc, hnd, isWsChar, punctTT]
  · intro hd hfuel
    have hadv : (advance1 st).src = st.src ∧ (advance1 st).idx = st.idx + 1 := by
      simp only [advance1, hc]
      split <;> simp
    have hcur : pyDigit (curChar (advance1 st)) = true := by
      rw [curChar, hadv.1, hadv.2]; exact hd
    obtain ⟨st', hst'⟩ := digitsLoop_ok fuel (advance1 st) (by rw [hadv.1, hadv.2]; omega)
    rcases hsign with h | h <;> subst h <;>
      exact ⟨st', by simp [lexStep, hc, hd, isWsChar, hcur, hst']⟩

/-- Witness for `c8_sign_behaviour` at concrete inputs: a lone `+` fails
with `UnexpectedCharacter`, and `+7` lexes as one `INT_CONST`. -/
theorem c8_sign_behaviour_witness :
    lexStep 5 ⟨['+'], 0, 1, 1⟩ = .fail (.unexpectedCharacter '+' ⟨0, 1, 1⟩) ∧
    (∃ st', lexStep 5 ⟨['+', '7'], 0, 1, 1⟩ = .tok ⟨.INT_CONST, ⟨0, 1, 1⟩, makePos st'⟩ st') := by
  constructor
  · exact (c8_sign_behaviour 5 ⟨['+'], 0, 1, 1⟩ '+' (by decide) (Or.inl rfl)).1 (by decide)
  · exact (c8_sign_behaviour 5 ⟨['+', '7'], 0, 1, 1⟩ '+' (by decide) (Or.inl rfl)).2
      (by decide) (by decide)

/-! ## AST embedding (parser.py) -/

/-- NamedType / ListType from parser.py: a field type is either a named
reference (builtin scalar or user-defined) or a list of a type. -/
inductive ThriftType where
  | NamedType (name : String)
  | ListType (elem : ThriftType)
deriving DecidableEq, Repr

/-- Field from parser.py. -/
structure Field where
  id : Int
  required : Bool
  type : ThriftType
  name : String
  default : Option (Int ⊕ String)
deriving DecidableEq, Repr

/-- EnumMember from parser.py. -/
structure EnumMember where
  name : String
  value : Option Int
deriving DecidableEq, Repr

/-- EnumDef from parser.py. -/
structure EnumDef where
  name : String
  members : List EnumMember
deriving DecidableEq, Repr

/-- StructDef from parser.py. -/
structure StructDef where
  name : String
  fields : List Field
deriving DecidableEq, Repr

/-- UnionDef from parser.py. -/
structure UnionDef where
  name : String
  fields : List Field
deriving DecidableEq, Repr

/-- A top-level Definition (the `Definition` union in parser.py). -/
inductive Defn where
  | enum (e : EnumDef)
  | struct (s : StructDef)
  | union (u : UnionDef)
deriving DecidableEq, Repr

/-! ## Recursive-descent parsing (parser.py)

The Parser object holds the token list and a cursor and reads token text
by slicing the source with each token's positions.  It is embedded as
functions over a list of (kind, text) pairs: the parser consults a token
only through `tok.tp` and `self.text(tok)`, so a token is modelled by
exactly those two projections, with state passing replacing the cursor. -/

/-- A token as the parsing functions see it: its kind and its source
text. -/
structure PTok where
  tp : TokenType
  text : String
deriving DecidableEq, Repr

/-- Parse failures (`ParseException` messages of parser.py). -/
inductive PErr where
  | eoi
  | expected (want : TokenType) (got : TokenType)
  | expectedTypeTok
  | expectedConstOrIdent
  | outOfFuel
deriving DecidableEq, Repr

/-- Python `int(text)` on the text of an `INT_CONST` token, whose shape
(`[+-]?[0-9]+`) is guaranteed by the lexer. -/
def digitsVal : List Char → Int → Int
  | [], acc => acc
  | c :: cs, acc => digitsVal cs (acc * 10 + ((c.toNat : Int) - ('0'.toNat : Int)))

/-- `int(...)` applied to an integer-literal token text. -/
def pyInt (s : String) : Int :=
  match s.data with
  | '+' :: rest => digitsVal rest 0
  | '-' :: rest => - digitsVal rest 0
  | ds => digitsVal ds 0

/-- The scalar-keyword kinds accepted by `parse_type` (parser.py lines
213-216). -/
def scalarTok (tp : TokenType) : Bool :=
  tp = .BOOL || tp = .BYTE || tp = .I8 || tp = .I16 || tp = .I32 ||
  tp = .I64 || tp = .DOUBLE || tp = .STRING || tp = .BINARY || tp = .UUID

/-- `Parser.parse_type`: `list` `<` type `>` or a scalar keyword or bare
identifier, both yielding a `NamedType` carrying the token text. -/
def parse_type : List PTok → Except PErr (ThriftType × List PTok)
  | [] => .error .eoi
  | t :: rest =>
    if t.tp = .LIST then
      match rest with
      | [] => .error .eoi
      | lt :: rest2 =>
        if lt.tp = .LT then
          match parse_type rest2 with
          | .error e => .error e
          | .ok (elem, rest3) =>
            match rest3 with
            | [] => .error .eoi
            | gt :: rest4 =>
              if gt.tp = .GT then .ok (.ListType elem, rest4)
              else .error (.expected .GT gt.tp)
        else .error (.expected .LT lt.tp)
    else if scalarTok t.tp || t.tp = .IDENT then .ok (.NamedType t.text, rest)
    else .error .expectedTypeTok

/-- The trailing `_ = self.match(COMMA) or self.match(SEMICOLON)` list
separator consumption. -/
def skipSep (toks : List PTok) : List PTok :=
  match toks with
  | t :: r => if t.tp = .COMMA then r else if t.tp = .SEMICOLON then r else toks
  | [] => toks

/-- The optional `= INT_CONST | = IDENT` default clause of
`parse_field`. -/
def parseDefaultVal (toks : List PTok) : Except PErr (Option (Int ⊕ String) × List PTok) :=
  match toks with
  | eqTok :: rest =>
    if eqTok.tp = .EQUAL then
      match rest with
      | [] => .error .eoi
      | vTok :: rest2 =>
        if vTok.tp = .INT_CONST then .ok (some (.inl (pyInt vTok.text)), rest2)
        else if vTok.tp = .IDENT then .ok (some (.inr vTok.text), rest2)
        else .error .expectedConstOrIdent
    else .ok (none, toks)
  | [] => .ok (none, toks)

/-- `parse_field` after the requiredness qualifier has been consumed:
type, name, optional default, optional separator (parser.py lines
189-203). -/
def parse_field_rest (fid : Int) (required : Bool) (toks : List PTok) :
    Except PErr (Field × List PTok) :=
  match parse_type toks with
  | .error e => .error e
  | .ok (ftype, rest3) =>
    match rest3 with
    | [] => .error .eoi
    | nameTok :: rest4 =>
      if nameTok.tp = .IDENT then
        match parseDefaultVal rest4 with
        | .error e => .error e
        | .ok (dflt, rest5) => .ok (⟨fid, required, ftype, nameTok.text, dflt⟩, skipSep rest5)
      else .error (.expected .IDENT nameTok.tp)

/-- `Parser.parse_field` (parser.py lines 176-203): field id, colon, an
optional `required`/`optional` qualifier — with **neither** treated the
same as `optional`, i.e. `required := False` — then type, name, optional
default, optional separator. -/
def parse_field (toks : List PTok) : Except PErr (Field × List PTok) :=
  match toks with
  | [] => .error .eoi
  | idTok :: rest0 =>
    if idTok.tp = .INT_CONST then
      match rest0 with
      | [] => .error .eoi
      | colonTok :: rest1 =>
        if colonTok.tp = .COLON then
          match rest1 with
          | t :: r =>
            if t.tp = .REQUIRED then parse_field_rest (pyInt idTok.text) true r
            else if t.tp = .OPTIONAL then parse_field_rest (pyInt idTok.text) false r
            else parse_field_rest (pyInt idTok.text) false rest1
          | [] => parse_field_rest (pyInt idTok.text) false rest1
        else .error (.expected .COLON colonTok.tp)
    else .error (.expected .INT_CONST idTok.tp)

/-- The enum-member loop of `Parser.parse_enum` (parser.py lines
134-145): members accumulate until the closing brace; a member without an
`= INT_CONST` clause gets value `None`. -/
def parse_enum_members : Nat → List PTok → List EnumMember → Except PErr (List EnumMember × List PTok)
  | 0, _, _ => .error .outOfFuel
  | _+1, [], _ => .error .eoi
  | n+1, t :: r, acc =>
    if t.tp = .RBRACE then .ok (acc, r)
    else if t.tp = .IDENT then
      match r with
      | eqTok :: r2 =>
        if eqTok.tp = .EQUAL then
          match r2 with
          | [] => .error .eoi
          | vTok :: r3 =>
            if vTok.tp = .INT_CONST then
              parse_enum_members n (skipSep r3) (acc ++ [⟨t.text, some (pyInt vTok.text)⟩])
            else .error (.expected .INT_CONST vTok.tp)
        else parse_enum_members n (skipSep r) (acc ++ [⟨t.text, none⟩])
      | [] => parse_enum_members n (skipSep r) (acc ++ [⟨t.text, none⟩])
    else .error (.expected .IDENT t.tp)

/-- `Parser.parse_enum`. -/
def parse_enum (fuel : Nat) (toks : List PTok) : Except PErr (EnumDef × List PTok) :=
  match toks with
  | kw :: rest0 =>
    if kw.tp = .ENUM then
      match rest0 with
      | nameTok :: rest1 =>
        if nameTok.tp = .IDENT then
          match rest1 with
          | lb :: rest2 =>
            if lb.tp = .LBRACE then
              match parse_enum_members fuel rest2 [] with
              | .error e => .error e
              | .ok (members, rest3) => .ok (⟨nameTok.text, members⟩, rest3)
            else .error (.expected .LBRACE lb.tp)
          | [] => .error .eoi
        else .error (.expected .IDENT nameTok.tp)
      | [] => .error .eoi
    else .error (.expected .ENUM kw.tp)
  | [] => .error .eoi

example : parse_field [⟨.INT_CONST, "1"⟩, ⟨.COLON, ":"⟩, ⟨.I32, "i32"⟩, ⟨.IDENT, "x"⟩, ⟨.SEMICOLON, ";"⟩] =
    .ok (⟨1, false, .NamedType "i32", "x", none⟩, []) := by decide

example : parse_field [⟨.INT_CONST, "2"⟩, ⟨.COLON, ":"⟩, ⟨.REQUIRED, "required"⟩,
      ⟨.LIST, "list"⟩, ⟨.LT, "<"⟩, ⟨.I64, "i64"⟩, ⟨.GT, ">"⟩, ⟨.IDENT, "xs"⟩] =
    .ok (⟨2, true, .ListType (.NamedType "i64"), "xs", none⟩, []) := by decide

example : parse_enum 10 [⟨.ENUM, "enum"⟩, ⟨.IDENT, "E"⟩, ⟨.LBRACE, "("⟩,
      ⟨.IDENT, "A"⟩, ⟨.RBRACE, ")"⟩] =
    .ok (⟨"E", [⟨"A", none⟩]⟩, []) := by decide

/-! ## Type classifier and enum generation (code_gen.py) -/

/-- The wire type-tag enumeration (`TType` of the assumed runtime, as
named by the string table in code_gen.py). -/
inductive TType where
  | BOOL | BYTE | I16 | I32 | I64 | DOUBLE | STRING | STRUCT | LIST | STOP
deriving DecidableEq, Repr

/-- `BASIC_NAMED_TO_TTYPE` of code_gen.py.  Note: it has entries for
`i8` but **not** for `byte`, and none for `uuid`. -/
def BASIC_NAMED_TO_TTYPE (n : String) : Option TType :=
  if n = "bool" then some .BOOL
  else if n = "double" then some .DOUBLE
  else if n = "string" then some .STRING
  else if n = "binary" then some .STRING
  else if n = "i8" then some .BYTE
  else if n = "i16" then some .I16
  else if n = "i32" then some .I32
  else if n = "i64" then some .I64
  else none

/-- The definition table: `name -> Definition`, looked up with Python's
`defsmap[name]` (a `KeyError` when absent). -/
abbrev DefsMap := List (String × Defn)

/-- Dictionary lookup. -/
def lookupDef (m : DefsMap) (n : String) : Option Defn :=
  (m.find? (fun p => p.1 = n)).map (fun p => p.2)

/-- Failure modes of the code generator (Python exceptions it can raise,
plus `shapeError`/`outOfFuel` which are artifacts of the embedding: the
Zig type system rules out `shapeError` at runtime, and `outOfFuel` only
bounds recursion depth). -/
inductive CgErr where
  | keyError (name : String)
  | notImplementedType
  | notImplementedListElem
  | notImplementedDouble
  | notImplementedPayload
  | autoEnumValue
  | shapeError
  | outOfFuel
deriving DecidableEq, Repr

/-- `classify_type` of code_gen.py (lines 86-97): basic names map via
the fixed table; other names are looked up in the definition table —
raising `KeyError` when absent — and classify as STRUCT or enum-encoded
I32; a ListType raises NotImplementedError. -/
def classify_type (t : ThriftType) (defsmap : DefsMap) : Except CgErr (TType × Bool) :=
  match t with
  | .NamedType n =>
    match BASIC_NAMED_TO_TTYPE n with
    | some tt => .ok (tt, false)
    | none =>
      match lookupDef defsmap n with
      | none => .error (.keyError n)
      | some (.struct _) => .ok (.STRUCT, false)
      | some (.union _) => .ok (.STRUCT, false)
      | some (.enum _) => .ok (.I32, true)
  | .ListType _ => .error .notImplementedType

/-- `classify_list_elem_type` of code_gen.py (lines 100-109): same
shape, but any unsupported element (including a nested list) raises the
`Unsupported list element type` error. -/
def classify_list_elem_type (t : ThriftType) (defsmap : DefsMap) : Except CgErr (TType × Bool) :=
  match t with
  | .NamedType n =>
    match BASIC_NAMED_TO_TTYPE n with
    | some tt => .ok (tt, false)
    | none =>
      match lookupDef defsmap n with
      | none => .error (.keyError n)
      | some (.struct _) => .ok (.STRUCT, false)
      | some (.union _) => .ok (.STRUCT, false)
      | some (.enum _) => .ok (.I32, true)
  | .ListType _ => .error .notImplementedListElem

/-- `CodeGenerator.generate_enum` (code_gen.py lines 526-537), with the
emitted member lines represented by their `(name, value)` content (the
surrounding text is constant boilerplate).  A member whose parsed value
is `None` raises `NotImplementedError("can't auto-assign enum values
yet")` before the enum's code is returned. -/
def generate_enum_members : List EnumMember → Except CgErr (List (String × Int))
  | [] => .ok []
  | m :: ms =>
    match m.value with
    | none => .error .autoEnumValue
    | some v =>
      match generate_enum_members ms with
      | .error e => .error e
      | .ok rest => .ok ((m.name, v) :: rest)

/-- `generate_enum` on a whole enum definition. -/
def generate_enum (ed : EnumDef) : Except CgErr (List (String × Int)) :=
  generate_enum_members ed.members

/-! ## Claims C9, C7, C10 -/

/-- For successful `parse_field_rest` results the requiredness flag is
exactly the one passed in. -/
theorem parse_field_rest_required {fid : Int} {req : Bool} {toks : List PTok}
    {fld : Field} {rest' : List PTok}
    (h : parse_field_rest fid req toks = .ok (fld, rest')) : fld.required = req := by
  unfold parse_field_rest at h
  cases hpt : parse_type toks with
  | error e => rw [hpt] at h; cases h
  | ok p =>
    obtain ⟨ftype, rest3⟩ := p
    rw [hpt] at h
    cases rest3 with
    | nil => cases h
    | cons nameTok rest4 =>
      dsimp only at h
      by_cases hn : nameTok.tp = .IDENT
      · rw [if_pos hn] at h
        cases hdv : parseDefaultVal rest4 with
        | error e => rw [hdv] at h; cases h
        | ok q =>
          obtain ⟨dflt, rest5⟩ := q
          rw [hdv] at h
          cases h
          rfl
      · rw [if_neg hn] at h; cases h

/-- Claim C9: a field parsed with neither `required` nor `optional`
gets `required = false`, and the parse is identical — same `Field`, same
remaining tokens, same errors — to the parse of the token stream with an
explicit `optional` inserted. -/
theorem c9_default_requiredness (idTok colonTok optTok : PTok) (rest : List PTok)
    (hid : idTok.tp = .INT_CONST) (hcolon : colonTok.tp = .COLON)
    (hopt : optTok.tp = .OPTIONAL)
    (hnoqual : ∀ t, rest.head? = some t → t.tp ≠ .REQUIRED ∧ t.tp ≠ .OPTIONAL) :
    (∀ fld rest', parse_field (idTok :: colonTok :: rest) = .ok (fld, rest') →
      fld.required = false) ∧
    parse_field (idTok :: colonTok :: rest) =
      parse_field (idTok :: colonTok :: optTok :: rest) := by
  have hbase : parse_field (idTok :: colonTok :: rest) =
      parse_field_rest (pyInt idTok.text) false rest := by
    match rest with
    | [] => simp [parse_field, hid, hcolon]
    | t :: r =>
      obtain ⟨h1, h2⟩ := hnoqual t rfl
      simp [parse_field, hid, hcolon, h1, h2]
  have hopt' : parse_field (idTok :: colonTok :: optTok :: rest) =
      parse_field_rest (pyInt idTok.text) false rest := by
    have : optTok.tp ≠ .REQUIRED := by rw [hopt]; decide
    simp [parse_field, hid, hcolon, hopt, this]
  constructor
  · intro fld rest' h
    exact parse_field_rest_required (hbase ▸ h)
  · rw [hbase, hopt']

/-- Witness for `c9_default_requiredness`: `1: i32 x ;` parses with
`required = false` and identically to `1: optional i32 x ;`. -/
theorem c9_default_requiredness_witness :
    (∀ fld rest', parse_field [⟨.INT_CONST, "1"⟩, ⟨.COLON, ":"⟩, ⟨.I32, "i32"⟩,
        ⟨.IDENT, "x"⟩, ⟨.SEMICOLON, ";"⟩] = .ok (fld, rest') → fld.required = false) ∧
    parse_field [⟨.INT_CONST, "1"⟩, ⟨.COLON, ":"⟩, ⟨.I32, "i32"⟩, ⟨.IDENT, "x"⟩, ⟨.SEMICOLON, ";"⟩] =
      parse_field [⟨.INT_CONST, "1"⟩, ⟨.COLON, ":"⟩, ⟨.OPTIONAL, "optional"⟩, ⟨.I32, "i32"⟩,
        ⟨.IDENT, "x"⟩, ⟨.SEMICOLON, ";"⟩] :=
  c9_default_requiredness ⟨.INT_CONST, "1"⟩ ⟨.COLON, ":"⟩ ⟨.OPTIONAL, "optional"⟩
    [⟨.I32, "i32"⟩, ⟨.IDENT, "x"⟩, ⟨.SEMICOLON, ";"⟩] rfl rfl rfl
    (by intro t ht; cases ht; exact ⟨by decide, by decide⟩)

/-- When any member lacks an explicit value, the member loop of
`generate_enum` raises the auto-numbering error. -/
theorem generate_enum_members_none {ms : List EnumMember} (h : ∃ m ∈ ms, m.value = none) :
    generate_enum_members ms = .error .autoEnumValue := by
  induction ms with
  | nil => obtain ⟨m, hm, _⟩ := h; cases hm
  | cons a ms ih =>
    obtain ⟨m, hm, hv⟩ := h
    rcases List.mem_cons.mp hm with h1 | h1
    · subst h1; simp [generate_enum_members, hv]
    · match ha : a.value with
      | none => simp [generate_enum_members, ha]
      | some v => simp [generate_enum_members, ha, ih ⟨m, h1, hv⟩]

/-- Claim C7: the parser records an enum member written without `=
value` as having value `None` (shown on the schema `enum E { A }`), and
`generate_enum` fails with the auto-numbering `NotImplementedError` on
every enum definition containing such a member, producing no code for
the enum. -/
theorem c7_enum_auto_numbering :
    parse_enum 10 [⟨.ENUM, "enum"⟩, ⟨.IDENT, "E"⟩, ⟨.LBRACE, "("⟩, ⟨.IDENT, "A"⟩, ⟨.RBRACE, ")"⟩] =
      .ok (⟨"E", [⟨"A", none⟩]⟩, []) ∧
    ∀ ed : EnumDef, (∃ m ∈ ed.members, m.value = none) →
      generate_enum ed = .error .autoEnumValue := by
  constructor
  · decide
  · intro ed hm
    unfold generate_enum
    exact generate_enum_members_none hm

/-- Witness for `c7_enum_auto_numbering`: applied to the enum produced
by the parse in its first conjunct. -/
theorem c7_enum_auto_numbering_witness :
    generate_enum ⟨"E", [⟨"A", none⟩]⟩ = .error .autoEnumValue :=
  c7_enum_auto_numbering.2 ⟨"E", [⟨"A", none⟩]⟩ ⟨⟨"A", none⟩, by decide, rfl⟩

/-- Claim C10: the lexer keyword table and `parse_type` accept `byte`
and `uuid` as field types, but `BASIC_NAMED_TO_TTYPE` has no entry for
either, so `classify_type` falls through to the definition-table lookup
and — when the schema defines no type of that name — raises an uncaught
`KeyError` rather than classifying the type or reporting a dedicated
unsupported-feature error. -/
theorem c10_byte_uuid_keyerror :
    (KEYWORDS "byte" = some .BYTE ∧ KEYWORDS "uuid" = some .UUID) ∧
    (∀ (t : PTok) (rest : List PTok), t.tp = .BYTE ∨ t.tp = .UUID →
      parse_type (t :: rest) = .ok (.NamedType t.text, rest)) ∧
    (BASIC_NAMED_TO_TTYPE "byte" = none ∧ BASIC_NAMED_TO_TTYPE "uuid" = none) ∧
    (∀ defsmap : DefsMap, lookupDef defsmap "byte" = none →
      classify_type (.NamedType "byte") defsmap = .error (.keyError "byte")) ∧
    (∀ defsmap : DefsMap, lookupDef defsmap "uuid" = none →
      classify_type (.NamedType "uuid") defsmap = .error (.keyError "uuid")) := by
  refine ⟨⟨by decide, by decide⟩, ?_, ⟨by decide, by decide⟩, ?_, ?_⟩
  · intro t rest h
    rcases h with h | h <;> rw [parse_type.eq_def] <;> simp [scalarTok, h]
  · intro defsmap h
    simp [classify_type, h, show BASIC_NAMED_TO_TTYPE "byte" = none by decide]
  · intro defsmap h
    simp [classify_type, h, show BASIC_NAMED_TO_TTYPE "uuid" = none by decide]

/-- Witness for `c10_byte_uuid_keyerror` at concrete inputs: the token
`byte`, and an empty definition table. -/
theorem c10_byte_uuid_keyerror_witness :
    parse_type [⟨.BYTE, "byte"⟩] = .ok (.NamedType "byte", []) ∧
    classify_type (.NamedType "byte") [] = .error (.keyError "byte") ∧
    classify_type (.NamedType "uuid") [] = .error (.keyError "uuid") :=
  ⟨c10_byte_uuid_keyerror.2.1 ⟨.BYTE, "byte"⟩ [] (Or.inl rfl),
   c10_byte_uuid_keyerror.2.2.2.1 [] rfl,
   c10_byte_uuid_keyerror.2.2.2.2 [] rfl⟩

/-! ## Wire model

Modelled from the spec: section 6 fixes the assumed runtime collaborator
interface — a framing `Writer` accepting tagged frames and a `Reader`
returning them (`StructBegin`, `FieldBegin{tag,id}`, `ListBegin`,
primitive payloads, `readFieldBegin -> FieldMeta | Stop`, `skip(tag)`).
The wire is therefore modelled as the sequence of frames exchanged
through that interface; byte-level encoding is declared out of scope by
the spec (section 1). -/

/-- One frame of the collaborator interface (spec section 6). -/
inductive Frame where
  | StructBegin
  | StructEnd
  | FieldBegin (tp : TType) (fid : Int)
  | FieldEnd
  | FieldStop
  | ListBegin (elemTp : TType) (size : Nat)
  | ListEnd
  | FBool (b : Bool)
  | FI08 (n : Int)
  | FI16 (n : Int)
  | FI32 (n : Int)
  | FI64 (n : Int)
  | FBinary (s : String)
deriving DecidableEq, Repr

/-- A runtime value of a generated Zig type: scalars, strings/binaries,
an enum held as its 32-bit representation, a struct instance (one slot
per declared field, in declaration order; `none` is a `null` optional or
a not-yet-assigned required field), a union holding one named
alternative, and a list. -/
inductive Value where
  | vBool (b : Bool)
  | vI8 (n : Int)
  | vI16 (n : Int)
  | vI32 (n : Int)
  | vI64 (n : Int)
  | vStr (s : String)
  | vEnum (n : Int)
  | vStruct (slots : List (Option Value))
  | vUnion (fname : String) (payload : Value)
  | vList (items : List Value)

/-- Reader-side failures: `framing` is any collaborator-level protocol
error, `requiredFieldMissing`/`cantParseUnion` are the two ThriftErrors
(carrying the reader position at which they were raised, since
`readCatchThrift` resumes there), `genUnreachable` marks read code the
generator would have refused to emit, and `outOfFuel` bounds recursion
depth in the embedding. -/
inductive RErr where
  | framing
  | requiredFieldMissing (rest : List Frame)
  | cantParseUnion (rest : List Frame)
  | genUnreachable
  | outOfFuel
deriving DecidableEq, Repr

/-- `Reader.readStructBegin`. -/
def rdStructBegin : List Frame → Except RErr (List Frame)
  | .StructBegin :: r => .ok r
  | _ => .error .framing

/-- `Reader.readStructEnd`. -/
def rdStructEnd : List Frame → Except RErr (List Frame)
  | .StructEnd :: r => .ok r
  | _ => .error .framing

/-- `Reader.readFieldEnd`. -/
def rdFieldEnd : List Frame → Except RErr (List Frame)
  | .FieldEnd :: r => .ok r
  | _ => .error .framing

/-- `Reader.readListEnd`. -/
def rdListEnd : List Frame → Except RErr (List Frame)
  | .ListEnd :: r => .ok r
  | _ => .error .framing

/-- `Reader.readFieldBegin`: a field marker, or the stop marker reported
as `FieldMeta` with tag STOP (which `readFieldOrStop` turns into null). -/
def rdFieldBegin : List Frame → Except RErr ((TType × Int) × List Frame)
  | .FieldBegin tp fid :: r => .ok ((tp, fid), r)
  | .FieldStop :: r => .ok ((.STOP, 0), r)
  | _ => .error .framing

/-- `Reader.readListBegin`. -/
def rdListBegin : List Frame → Except RErr ((TType × Nat) × List Frame)
  | .ListBegin tp n :: r => .ok ((tp, n), r)
  | _ => .error .framing

/-- `Reader.readBool`. -/
def rdBool : List Frame → Except RErr (Bool × List Frame)
  | .FBool b :: r => .ok (b, r)
  | _ => .error .framing

/-- `Reader.readI08`. -/
def rdI08 : List Frame → Except RErr (Int × List Frame)
  | .FI08 n :: r => .ok (n, r)
  | _ => .error .framing

/-- `Reader.readI16`. -/
def rdI16 : List Frame → Except RErr (Int × List Frame)
  | .FI16 n :: r => .ok (n, r)
  | _ => .error .framing

/-- `Reader.readI32`. -/
def rdI32 : List Frame → Except RErr (Int × List Frame)
  | .FI32 n :: r => .ok (n, r)
  | _ => .error .framing

/-- `Reader.readI64`. -/
def rdI64 : List Frame → Except RErr (Int × List Frame)
  | .FI64 n :: r => .ok (n, r)
  | _ => .error .framing

/-- `Reader.readBinary`. -/
def rdBinary : List Frame → Except RErr (String × List Frame)
  | .FBinary s :: r => .ok (s, r)
  | _ => .error .framing

/-- `Reader.readDouble`: the section-6 interface offers no double read
and the Writer no double frame (double writing raises NotImplemented at
generation time), so a double read can never succeed in this model. -/
def rdDouble : List Frame → Except RErr (Int × List Frame) :=
  fun _ => .error .framing

/-- The `TTYPE_TO_READFN` dispatch: the primitive read call the
generated code makes for a basic non-allocating ttype, wrapped in the
value constructor of the field's Zig type.  STRING is not in the table
(the generated code calls `readBinary` from a dedicated branch), and the
remaining tags have no reader method. -/
def readBasic (tt : TType) (fs : List Frame) : Except RErr (Value × List Frame) :=
  match tt with
  | .BYTE =>
    match rdI08 fs with
    | .error e => .error e
    | .ok (n, r) => .ok (.vI8 n, r)
  | .I16 =>
    match rdI16 fs with
    | .error e => .error e
    | .ok (n, r) => .ok (.vI16 n, r)
  | .I32 =>
    match rdI32 fs with
    | .error e => .error e
    | .ok (n, r) => .ok (.vI32 n, r)
  | .I64 =>
    match rdI64 fs with
    | .error e => .error e
    | .ok (n, r) => .ok (.vI64 n, r)
  | .BOOL =>
    match rdBool fs with
    | .error e => .error e
    | .ok (b, r) => .ok (.vBool b, r)
  | .DOUBLE =>
    match rdDouble fs with
    | .error e => .error e
    | .ok (n, r) => .ok (.vI64 n, r)
  | _ => .error .genUnreachable

/-! ## Writer semantics of the generated code (code_gen.py)

The write methods the generator emits are embedded as functions of the
definition and the written value.  Exceptions the *generator* raises
while emitting a method (`KeyError` from an unresolved name,
`NotImplementedError` for doubles, list-of-list, and similar) surface
here as errors too: a write method only exists when its generation
succeeded, so `writeDefn ... = .ok frames` asserts both. -/

/-- Code-generation-time validity of `emit_write_payload` (code_gen.py
116-126): an enum payload always has a command; otherwise the ttype must
be in `TTYPE_TO_CMD` — with DOUBLE mapped to the `TODO_NOT_IMPLEMENTED`
marker that raises — or be STRUCT. -/
def checkPayloadCmd (tt : TType) (isEnum : Bool) : Except CgErr Unit :=
  if isEnum then .ok ()
  else
    match tt with
    | .BOOL | .BYTE | .I16 | .I32 | .I64 | .STRING => .ok ()
    | .DOUBLE => .error .notImplementedDouble
    | .STRUCT => .ok ()
    | _ => .error .notImplementedPayload

/-- The frames of a basic (non-enum, non-struct) payload write, per
`TTYPE_TO_CMD`: BYTE writes an I08 frame, STRING a Binary frame, and a
DOUBLE payload raises at generation time; a mismatch between the ttype
and the held value cannot occur in the statically-typed generated code. -/
def writeBasic : TType → Value → Except CgErr (List Frame)
  | .DOUBLE, _ => .error .notImplementedDouble
  | .BOOL, .vBool b => .ok [.FBool b]
  | .BYTE, .vI8 n => .ok [.FI08 n]
  | .I16, .vI16 n => .ok [.FI16 n]
  | .I32, .vI32 n => .ok [.FI32 n]
  | .I64, .vI64 n => .ok [.FI64 n]
  | .STRING, .vStr s => .ok [.FBinary s]
  | _, _ => .error .shapeError

/-- Code-generation-time validation of every write case of a union
(code_gen.py 680-693): list alternatives get an empty case without
consulting the classifier; every other alternative must classify and
have a writable payload command. -/
def checkUnionCases (defs : DefsMap) : List Field → Except CgErr Unit
  | [] => .ok ()
  | f :: fs =>
    match f.type with
    | .ListType _ => checkUnionCases defs fs
    | .NamedType _ =>
      match classify_type f.type defs with
      | .error e => .error e
      | .ok (tt, isEnum) =>
        match checkPayloadCmd tt isEnum with
        | .error e => .error e
        | .ok _ => checkUnionCases defs fs

mutual

/-- The `write` method the generator emits for a definition (code_gen.py
`generate_struct` lines 656-658 and 570-589; `generate_union` lines
733-740): a structure-begin marker, the per-field frames (struct) or the
held alternative's case (union), a field-stop marker, and a
structure-end marker.  Enums have no write method.  Fuel bounds
recursion depth only. -/
def writeDefn (fuel : Nat) (defs : DefsMap) (d : Defn) (v : Value) : Except CgErr (List Frame) :=
  match fuel with
  | 0 => .error .outOfFuel
  | n+1 =>
    match d with
    | .enum _ => .error .shapeError
    | .struct sd =>
      match v with
      | .vStruct slots =>
        match writeFields n defs sd.fields slots with
        | .error e => .error e
        | .ok body => .ok (.StructBegin :: body ++ [.FieldStop, .StructEnd])
      | _ => .error .shapeError
    | .union ud =>
      match v with
      | .vUnion fname pv =>
        match checkUnionCases defs ud.fields with
        | .error e => .error e
        | .ok _ =>
          match writeUnionCase n defs ud.fields fname pv with
          | .error e => .error e
          | .ok body => .ok (.StructBegin :: body ++ [.FieldStop, .StructEnd])
      | _ => .error .shapeError

/-- The emitted field writes of a struct, in declaration order, one slot
per field. -/
def writeFields (fuel : Nat) (defs : DefsMap) (fields : List Field)
    (slots : List (Option Value)) : Except CgErr (List Frame) :=
  match fuel with
  | 0 => .error .outOfFuel
  | n+1 =>
    match fields, slots with
    | [], [] => .ok []
    | f :: fs, slot :: ss =>
      match writeField1 n defs f slot with
      | .error e => .error e
      | .ok head =>
        match writeFields n defs fs ss with
        | .error e => .error e
        | .ok tail => .ok (head ++ tail)
    | _, _ => .error .shapeError

/-- `write_field` for one field (code_gen.py 154-181).  The classifier
and the payload emitter run at generation time — also for an optional
field whose runtime value happens to be absent — and an absent optional
field then writes no frames at all; a present field writes
`FieldBegin(ttype, id)`, the payload, and `FieldEnd`; a list field
writes `FieldBegin(LIST, id)`, `ListBegin(elemTtype, len)`, the element
payloads, `ListEnd`, `FieldEnd`. -/
def writeField1 (fuel : Nat) (defs : DefsMap) (f : Field) (slot : Option Value) :
    Except CgErr (List Frame) :=
  match fuel with
  | 0 => .error .outOfFuel
  | n+1 =>
    match f.type with
    | .ListType elemT =>
      match classify_list_elem_type elemT defs with
      | .error e => .error e
      | .ok (ett, eIsEnum) =>
        match checkPayloadCmd ett eIsEnum with
        | .error e => .error e
        | .ok _ =>
          match slot with
          | none => if f.required then .error .shapeError else .ok []
          | some (.vList items) =>
            match writeListItems n defs elemT items with
            | .error e => .error e
            | .ok body =>
              .ok (.FieldBegin .LIST f.id :: .ListBegin ett items.length :: body
                ++ [.ListEnd, .FieldEnd])
          | some _ => .error .shapeError
    | .NamedType _ =>
      match classify_type f.type defs with
      | .error e => .error e
      | .ok (tt, isEnum) =>
        match checkPayloadCmd tt isEnum with
        | .error e => .error e
        | .ok _ =>
          match slot with
          | none => if f.required then .error .shapeError else .ok []
          | some v =>
            match writePayload n defs f.type v with
            | .error e => .error e
            | .ok body => .ok (.FieldBegin tt f.id :: body ++ [.FieldEnd])

/-- `emit_write_payload` (code_gen.py 116-126) for a value of a named
type: an enum writes its 32-bit representation, a basic type writes its
primitive frame, a struct/union delegates to the nested write method. -/
def writePayload (fuel : Nat) (defs : DefsMap) (t : ThriftType) (v : Value) :
    Except CgErr (List Frame) :=
  match fuel with
  | 0 => .error .outOfFuel
  | n+1 =>
    match classify_type t defs with
    | .error e => .error e
    | .ok (tt, isEnum) =>
      if isEnum then
        match v with
        | .vEnum k => .ok [.FI32 k]
        | _ => .error .shapeError
      else if tt = .STRUCT then
        match t with
        | .NamedType nm =>
          match lookupDef defs nm with
          | some d => writeDefn n defs d v
          | none => .error (.keyError nm)
        | .ListType _ => .error .shapeError
      else writeBasic tt v

/-- The element-payload loop of `_emit_write_list_field` (code_gen.py
142-151). -/
def writeListItems (fuel : Nat) (defs : DefsMap) (elemT : ThriftType) (items : List Value) :
    Except CgErr (List Frame) :=
  match fuel with
  | 0 => .error .outOfFuel
  | n+1 =>
    match items with
    | [] => .ok []
    | x :: xs =>
      match writePayload n defs elemT x with
      | .error e => .error e
      | .ok head =>
        match writeListItems n defs elemT xs with
        | .error e => .error e
        | .ok tail => .ok (head ++ tail)

/-- The switch case of the union write method for the held alternative
(code_gen.py 680-693): a list alternative's case body is **empty** — it
writes no frames at all — and any other alternative writes
`FieldBegin(ttype, id)`, the payload, `FieldEnd`. -/
def writeUnionCase (fuel : Nat) (defs : DefsMap) (fields : List Field) (fname : String)
    (pv : Value) : Except CgErr (List Frame) :=
  match fuel with
  | 0 => .error .outOfFuel
  | n+1 =>
    match fields.find? (fun f => f.name = fname) with
    | none => .error .shapeError
    | some f =>
      match f.type with
      | .ListType _ => .ok []
      | .NamedType _ =>
        match classify_type f.type defs with
        | .error e => .error e
        | .ok (tt, _) =>
          match writePayload n defs f.type pv with
          | .error e => .error e
          | .ok body => .ok (.FieldBegin tt f.id :: body ++ [.FieldEnd])

end

/-! ## Reader semantics of the generated code (code_gen.py) -/

/-- The `FieldTag` dispatch `@as(FieldTag, @enumFromInt(field.fid))`:
the first declared field with the wire field id, with its index.  A wire
id matching no declared field selects the default (skip) case.  (A
schema declaring the sentinel id 32767 or duplicate ids would give the
generated FieldTag enum duplicate discriminants and not compile, so no
generated code disagrees with this dispatch.) -/
def findFieldIdxGo (i : Nat) (fid : Int) : List Field → Option (Nat × Field)
  | [] => none
  | f :: fs => if f.id = fid then some (i, f) else findFieldIdxGo (i+1) fid fs

/-- Dispatch from a wire field id to the declared field and its slot
index. -/
def findFieldIdx (fields : List Field) (fid : Int) : Option (Nat × Field) :=
  findFieldIdxGo 0 fid fields

/-- The generated `validate(is: Isset)` (code_gen.py 594-604): true iff
no required field has a false is-set bit; a false result is the
`ThriftError.RequiredFieldMissing` return. -/
def validateOk : List Field → List Bool → Bool
  | [], _ => true
  | f :: fs, b :: bs => if f.required && !b then false else validateOk fs bs
  | f :: fs, [] => if f.required then false else validateOk fs []

mutual

/-- `Reader.skip(tag)` of the collaborator (spec section 6): consume one
encoded value of the given wire type without interpreting it. -/
def skipT (fuel : Nat) (tp : TType) (fs : List Frame) : Except RErr (List Frame) :=
  match fuel with
  | 0 => .error .outOfFuel
  | n+1 =>
    match tp with
    | .BOOL =>
      match rdBool fs with
      | .error e => .error e
      | .ok (_, r) => .ok r
    | .BYTE =>
      match rdI08 fs with
      | .error e => .error e
      | .ok (_, r) => .ok r
    | .I16 =>
      match rdI16 fs with
      | .error e => .error e
      | .ok (_, r) => .ok r
    | .I32 =>
      match rdI32 fs with
      | .error e => .error e
      | .ok (_, r) => .ok r
    | .I64 =>
      match rdI64 fs with
      | .error e => .error e
      | .ok (_, r) => .ok r
    | .STRING =>
      match rdBinary fs with
      | .error e => .error e
      | .ok (_, r) => .ok r
    | .DOUBLE => .error .framing
    | .STRUCT =>
      match rdStructBegin fs with
      | .error e => .error e
      | .ok r => skipFieldsT n r
    | .LIST =>
      match rdListBegin fs with
      | .error e => .error e
      | .ok ((etp, sz), r) =>
        match skipListT n etp sz r with
        | .error e => .error e
        | .ok r2 => rdListEnd r2
    | .STOP => .error .framing

/-- Skipping the fields of an unknown struct until its stop marker. -/
def skipFieldsT (fuel : Nat) (fs : List Frame) : Except RErr (List Frame) :=
  match fuel with
  | 0 => .error .outOfFuel
  | n+1 =>
    match rdFieldBegin fs with
    | .error e => .error e
    | .ok ((tp, _), r) =>
      if tp = .STOP then rdStructEnd r
      else
        match skipT n tp r with
        | .error e => .error e
        | .ok r2 =>
          match rdFieldEnd r2 with
          | .error e => .error e
          | .ok r3 => skipFieldsT n r3

/-- Skipping a counted sequence of list elements. -/
def skipListT (fuel : Nat) (etp : TType) (cnt : Nat) (fs : List Frame) :
    Except RErr (List Frame) :=
  match fuel with
  | 0 => .error .outOfFuel
  | n+1 =>
    match cnt with
    | 0 => .ok fs
    | c+1 =>
      match skipT n etp fs with
      | .error e => .error e
      | .ok r => skipListT n etp c r

/-- The emitted `read` method of a struct (code_gen.py 631-645):
initialise the instance (required fields unassigned, optional fields
null) and the is-set bitmap, read the structure-begin marker, loop over
fields, read the structure-end marker, then validate the required
fields and return the instance. -/
def structReadF (fuel : Nat) (sd : StructDef) (defs : DefsMap) (fs : List Frame) :
    Except RErr (List (Option Value) × List Frame) :=
  match fuel with
  | 0 => .error .outOfFuel
  | n+1 =>
    match rdStructBegin fs with
    | .error e => .error e
    | .ok r =>
      match structLoopF n sd defs (sd.fields.map (fun _ => none))
          (sd.fields.map (fun _ => false)) r with
      | .error e => .error e
      | .ok (obj, isset, r2) =>
        match rdStructEnd r2 with
        | .error e => .error e
        | .ok r3 =>
          if validateOk sd.fields isset then .ok (obj, r3)
          else .error (.requiredFieldMissing r3)

/-- The `while (try readFieldOrStop(r)) |field|` loop of the struct read
method: dispatch on the field, then read the field-end marker. -/
def structLoopF (fuel : Nat) (sd : StructDef) (defs : DefsMap) (obj : List (Option Value))
    (isset : List Bool) (fs : List Frame) :
    Except RErr (List (Option Value) × List Bool × List Frame) :=
  match fuel with
  | 0 => .error .outOfFuel
  | n+1 =>
    match rdFieldBegin fs with
    | .error e => .error e
    | .ok ((tp, fid), r) =>
      if tp = .STOP then .ok (obj, isset, r)
      else
        match structFieldF n sd defs obj isset tp fid r with
        | .error e => .error e
        | .ok (obj', isset', r2) =>
          match rdFieldEnd r2 with
          | .error e => .error e
          | .ok r3 => structLoopF n sd defs obj' isset' r3

/-- The default case of the field switch: `try r.skip(field.tp)`,
leaving instance and is-set bitmap untouched. -/
def skipDefaultF (fuel : Nat) (obj : List (Option Value)) (isset : List Bool)
    (tp : TType) (fs : List Frame) :
    Except RErr (List (Option Value) × List Bool × List Frame) :=
  match fuel with
  | 0 => .error .outOfFuel
  | n+1 =>
    match skipT n tp fs with
    | .error e => .error e
    | .ok r => .ok (obj, isset, r)

/-- One dispatch of the generated `read<Name>Field` switch
(`_emit_read_field_case`, code_gen.py 213-316): find the declared field
for the wire id; if the wire type tag matches the expected tag decode
the payload into the slot and set the is-set bit, else skip; unknown ids
skip.  Nested struct/union fields go through `readCatchThrift`, which
leaves the field unset when the nested read fails with a ThriftError. -/
def structFieldF (fuel : Nat) (sd : StructDef) (defs : DefsMap) (obj : List (Option Value))
    (isset : List Bool) (tp : TType) (fid : Int) (fs : List Frame) :
    Except RErr (List (Option Value) × List Bool × List Frame) :=
  match fuel with
  | 0 => .error .outOfFuel
  | n+1 =>
    match findFieldIdx sd.fields fid with
    | none => skipDefaultF n obj isset tp fs
    | some (i, f) =>
      match f.type with
      | .NamedType nm =>
        match BASIC_NAMED_TO_TTYPE nm with
        | some tt =>
          if tt = .STRING then
            if tp = .STRING then
              match rdBinary fs with
              | .error e => .error e
              | .ok (s, r) => .ok (obj.set i (some (.vStr s)), isset.set i true, r)
            else skipDefaultF n obj isset tp fs
          else
            if tp = tt then
              match readBasic tt fs with
              | .error e => .error e
              | .ok (v, r) => .ok (obj.set i (some v), isset.set i true, r)
            else skipDefaultF n obj isset tp fs
        | none =>
          match lookupDef defs nm with
          | some (.enum _) =>
            if tp = .I32 then
              match rdI32 fs with
              | .error e => .error e
              | .ok (k, r) => .ok (obj.set i (some (.vEnum k)), isset.set i true, r)
            else skipDefaultF n obj isset tp fs
          | some (.struct _) =>
            if tp = .STRUCT then
              match readNestedF n defs nm fs with
              | .error e => .error e
              | .ok (some v, r) => .ok (obj.set i (some v), isset.set i true, r)
              | .ok (none, r) => .ok (obj, isset, r)
            else skipDefaultF n obj isset tp fs
          | some (.union _) =>
            if tp = .STRUCT then
              match readNestedF n defs nm fs with
              | .error e => .error e
              | .ok (some v, r) => .ok (obj.set i (some v), isset.set i true, r)
              | .ok (none, r) => .ok (obj, isset, r)
            else skipDefaultF n obj isset tp fs
          | none => skipDefaultF n obj isset tp fs
      | .ListType elemT =>
        if tp = .LIST then
          match rdListBegin fs with
          | .error e => .error e
          | .ok ((_, sz), r) =>
            match readListItemsF n defs elemT sz [] r with
            | .error e => .error e
            | .ok (items, r2) =>
              match rdListEnd r2 with
              | .error e => .error e
              | .ok r3 => .ok (obj.set i (some (.vList items)), isset.set i true, r3)
        else skipDefaultF n obj isset tp fs

/-- The per-element read of a list field (`_emit_read_list_item_lines`,
code_gen.py 184-211), iterated `size` times as declared by the list
header.  A nested struct/union element whose `readCatchThrift` returns
null is simply not appended.  Element shapes the generator refuses
(unknown names, nested lists) raised NotImplementedError at generation
time. -/
def readListItemsF (fuel : Nat) (defs : DefsMap) (elemT : ThriftType) (cnt : Nat)
    (acc : List Value) (fs : List Frame) : Except RErr (List Value × List Frame) :=
  match fuel with
  | 0 => .error .outOfFuel
  | n+1 =>
    match cnt with
    | 0 => .ok (acc, fs)
    | c+1 =>
      match elemT with
      | .NamedType nm =>
        match BASIC_NAMED_TO_TTYPE nm with
        | some tt =>
          if tt = .STRING then
            match rdBinary fs with
            | .error e => .error e
            | .ok (s, r) => readListItemsF n defs elemT c (acc ++ [.vStr s]) r
          else
            match readBasic tt fs with
            | .error e => .error e
            | .ok (v, r) => readListItemsF n defs elemT c (acc ++ [v]) r
        | none =>
          match lookupDef defs nm with
          | some (.enum _) =>
            match rdI32 fs with
            | .error e => .error e
            | .ok (k, r) => readListItemsF n defs elemT c (acc ++ [.vEnum k]) r
          | some (.struct _) =>
            match readNestedF n defs nm fs with
            | .error e => .error e
            | .ok (some v, r) => readListItemsF n defs elemT c (acc ++ [v]) r
            | .ok (none, r) => readListItemsF n defs elemT c acc r
          | some (.union _) =>
            match readNestedF n defs nm fs with
            | .error e => .error e
            | .ok (some v, r) => readListItemsF n defs elemT c (acc ++ [v]) r
            | .ok (none, r) => readListItemsF n defs elemT c acc r
          | none => .error .genUnreachable
      | .ListType _ => .error .genUnreachable

/-- The emitted `read` method of a union (code_gen.py 713-724): loop
over fields, each matching field **replacing** `obj`, then return `obj
orelse ThriftError.CantParseUnion` after the structure-end marker. -/
def unionReadF (fuel : Nat) (ud : UnionDef) (defs : DefsMap) (fs : List Frame) :
    Except RErr (Value × List Frame) :=
  match fuel with
  | 0 => .error .outOfFuel
  | n+1 =>
    match rdStructBegin fs with
    | .error e => .error e
    | .ok r =>
      match unionLoopF n ud defs none r with
      | .error e => .error e
      | .ok (obj, r2) =>
        match rdStructEnd r2 with
        | .error e => .error e
        | .ok r3 =>
          match obj with
          | some v => .ok (v, r3)
          | none => .error (.cantParseUnion r3)

/-- The field loop of the union read method: `if (try readField(...))
|new_obj| { obj = new_obj; }` then the field-end marker. -/
def unionLoopF (fuel : Nat) (ud : UnionDef) (defs : DefsMap) (obj : Option Value)
    (fs : List Frame) : Except RErr (Option Value × List Frame) :=
  match fuel with
  | 0 => .error .outOfFuel
  | n+1 =>
    match rdFieldBegin fs with
    | .error e => .error e
    | .ok ((tp, fid), r) =>
      if tp = .STOP then .ok (obj, r)
      else
        match unionFieldF n ud defs tp fid r with
        | .error e => .error e
        | .ok (res, r2) =>
          match rdFieldEnd r2 with
          | .error e => .error e
          | .ok r3 =>
            match res with
            | some v => unionLoopF n ud defs (some v) r3
            | none => unionLoopF n ud defs obj r3

/-- One dispatch of the generated `read<Name>Field` helper of a union
(`_emit_read_union_field_case`, code_gen.py 318-384): a matching field
returns the completed union value; a type mismatch, an unknown id, or a
list-typed alternative skips the payload and returns null; a nested
struct/union whose `readCatchThrift` returns null returns null. -/
def unionFieldF (fuel : Nat) (ud : UnionDef) (defs : DefsMap) (tp : TType) (fid : Int)
    (fs : List Frame) : Except RErr (Option Value × List Frame) :=
  match fuel with
  | 0 => .error .outOfFuel
  | n+1 =>
    match findFieldIdx ud.fields fid with
    | none =>
      match skipT n tp fs with
      | .error e => .error e
      | .ok r => .ok (none, r)
    | some (_, f) =>
      match f.type with
      | .NamedType nm =>
        match BASIC_NAMED_TO_TTYPE nm with
        | some tt =>
          if tt = .STRING then
            if tp = .STRING then
              match rdBinary fs with
              | .error e => .error e
              | .ok (s, r) => .ok (some (.vUnion f.name (.vStr s)), r)
            else
              match skipT n tp fs with
              | .error e => .error e
              | .ok r => .ok (none, r)
          else
            if tp = tt then
              match readBasic tt fs with
              | .error e => .error e
              | .ok (v, r) => .ok (some (.vUnion f.name v), r)
            else
              match skipT n tp fs with
              | .error e => .error e
              | .ok r => .ok (none, r)
        | none =>
          match lookupDef defs nm with
          | some (.enum _) =>
            if tp = .I32 then
              match rdI32 fs with
              | .error e => .error e
              | .ok (k, r) => .ok (some (.vUnion f.name (.vEnum k)), r)
            else
              match skipT n tp fs with
              | .error e => .error e
              | .ok r => .ok (none, r)
          | some (.struct _) =>
            if tp = .STRUCT then
              match readNestedF n defs nm fs with
              | .error e => .error e
              | .ok (some v, r) => .ok (some (.vUnion f.name v), r)
              | .ok (none, r) => .ok (none, r)
            else
              match skipT n tp fs with
              | .error e => .error e
              | .ok r => .ok (none, r)
          | some (.union _) =>
            if tp = .STRUCT then
              match readNestedF n defs nm fs with
              | .error e => .error e
              | .ok (some v, r) => .ok (some (.vUnion f.name v), r)
              | .ok (none, r) => .ok (none, r)
            else
              match skipT n tp fs with
              | .error e => .error e
              | .ok r => .ok (none, r)
          | none =>
            match skipT n tp fs with
            | .error e => .error e
            | .ok r => .ok (none, r)
      | .ListType _ =>
        match skipT n tp fs with
        | .error e => .error e
        | .ok r => .ok (none, r)

/-- `readCatchThrift(T, r, alloc)` (code_gen.py 513-523) for a named
nested type: run the nested read method, mapping the two ThriftErrors —
`CantParseUnion` and `RequiredFieldMissing` — to null at the reader
position where they were raised, and propagating every other error. -/
def readNestedF (fuel : Nat) (defs : DefsMap) (nm : String) (fs : List Frame) :
    Except RErr (Option Value × List Frame) :=
  match fuel with
  | 0 => .error .outOfFuel
  | n+1 =>
    match lookupDef defs nm with
    | some (.struct sd) =>
      match structReadF n sd defs fs with
      | .ok (slots, r) => .ok (some (.vStruct slots), r)
      | .error (.requiredFieldMissing r) => .ok (none, r)
      | .error (.cantParseUnion r) => .ok (none, r)
      | .error e => .error e
    | some (.union ud) =>
      match unionReadF n ud defs fs with
      | .ok (v, r) => .ok (some v, r)
      | .error (.requiredFieldMissing r) => .ok (none, r)
      | .error (.cantParseUnion r) => .ok (none, r)
      | .error e => .error e
    | _ => .error .genUnreachable

end

/-- The read method of a top-level definition, as invoked by the
synthesized test block (struct instances are `vStruct` values). -/
def readDefn (fuel : Nat) (defs : DefsMap) (d : Defn) (fs : List Frame) :
    Except RErr (Value × List Frame) :=
  match d with
  | .struct sd =>
    match structReadF fuel sd defs fs with
    | .error e => .error e
    | .ok (slots, r) => .ok (.vStruct slots, r)
  | .union ud => unionReadF fuel ud defs fs
  | .enum _ => .error .genUnreachable

/-! ## Shape conformance and schema well-formedness -/

/-- Whether a type expression is a ListType. -/
def isListTy : ThriftType → Bool
  | .ListType _ => true
  | .NamedType _ => false

/-- The fields of a definition (enums have none). -/
def defnFields : Defn → List Field
  | .enum _ => []
  | .struct s => s.fields
  | .union u => u.fields

/-- Field ids are pairwise distinct — the condition under which the
generated `FieldTag` enum has distinct discriminants and the definition
compiles. -/
def NodupIds (fields : List Field) : Prop :=
  (fields.map (fun f => f.id)).Nodup

/-- Every definition in the table has pairwise distinct field ids. -/
def WellDefs (defs : DefsMap) : Prop :=
  ∀ p ∈ defs, NodupIds (defnFields p.2)

mutual

/-- Conformance of a runtime value to a schema type, mirroring the Zig
types the generator declares for fields.  A union value must hold one of
the union's declared alternatives, and — the one restriction beyond the
generated Zig types — that alternative must not be list-typed: the
generator emits an empty write case for a list alternative, so such a
value writes no payload and can never be read back. -/
inductive ConfT : DefsMap → ThriftType → Value → Prop where
  | bool (defs : DefsMap) (b : Bool) : ConfT defs (.NamedType "bool") (.vBool b)
  | i8 (defs : DefsMap) (n : Int) : ConfT defs (.NamedType "i8") (.vI8 n)
  | i16 (defs : DefsMap) (n : Int) : ConfT defs (.NamedType "i16") (.vI16 n)
  | i32 (defs : DefsMap) (n : Int) : ConfT defs (.NamedType "i32") (.vI32 n)
  | i64 (defs : DefsMap) (n : Int) : ConfT defs (.NamedType "i64") (.vI64 n)
  | str (defs : DefsMap) (s : String) : ConfT defs (.NamedType "string") (.vStr s)
  | bin (defs : DefsMap) (s : String) : ConfT defs (.NamedType "binary") (.vStr s)
  | enumC (defs : DefsMap) (nm : String) (ed : EnumDef) (k : Int) :
      lookupDef defs nm = some (.enum ed) → ConfT defs (.NamedType nm) (.vEnum k)
  | structC (defs : DefsMap) (nm : String) (sd : StructDef) (slots : List (Option Value)) :
      lookupDef defs nm = some (.struct sd) → ConfSlots defs sd.fields slots →
      ConfT defs (.NamedType nm) (.vStruct slots)
  | unionC (defs : DefsMap) (nm : String) (ud : UnionDef) (fname : String) (f : Field)
      (pv : Value) :
      lookupDef defs nm = some (.union ud) →
      ud.fields.find? (fun g => g.name = fname) = some f →
      isListTy f.type = false → ConfT defs f.type pv →
      ConfT defs (.NamedType nm) (.vUnion fname pv)
  | listC (defs : DefsMap) (elemT : ThriftType) (items : List Value) :
      ConfItems defs elemT items → ConfT defs (.ListType elemT) (.vList items)

/-- Conformance of a struct instance to a field list: one slot per
field, a `none` slot only for a non-required field. -/
inductive ConfSlots : DefsMap → List Field → List (Option Value) → Prop where
  | nil (defs : DefsMap) : ConfSlots defs [] []
  | consSome (defs : DefsMap) (f : Field) (fs : List Field) (v : Value)
      (ss : List (Option Value)) :
      ConfT defs f.type v → ConfSlots defs fs ss →
      ConfSlots defs (f :: fs) (some v :: ss)
  | consNone (defs : DefsMap) (f : Field) (fs : List Field) (ss : List (Option Value)) :
      f.required = false → ConfSlots defs fs ss →
      ConfSlots defs (f :: fs) (none :: ss)

/-- Conformance of list items to the element type. -/
inductive ConfItems : DefsMap → ThriftType → List Value → Prop where
  | nil (defs : DefsMap) (t : ThriftType) : ConfItems defs t []
  | cons (defs : DefsMap) (t : ThriftType) (v : Value) (vs : List Value) :
      ConfT defs t v → ConfItems defs t vs → ConfItems defs t (v :: vs)

end

/-- Conformance of a top-level value to its definition, as constructed
and compared by the synthesized test block. -/
def ConfDefn (defs : DefsMap) : Defn → Value → Prop
  | .struct sd, .vStruct slots => ConfSlots defs sd.fields slots
  | .union ud, .vUnion fname pv =>
    ∃ f, ud.fields.find? (fun g => g.name = fname) = some f ∧
      isListTy f.type = false ∧ ConfT defs f.type pv
  | _, _ => False

/-! ## generate_union (code_gen.py 669-747) and claim C6 -/

/-- `BASIC_NAMED_TO_ZIG` of code_gen.py. -/
def BASIC_NAMED_TO_ZIG (n : String) : Option String :=
  if n = "bool" then some "bool"
  else if n = "double" then some "f64"
  else if n = "string" then some "[]const u8"
  else if n = "binary" then some "[]const u8"
  else if n = "i8" then some "i8"
  else if n = "i16" then some "i16"
  else if n = "i32" then some "i32"
  else if n = "i64" then some "i64"
  else none

/-- `ZigTypeSystem.get_zig_type` (code_gen.py 129-139). -/
def get_zig_type : ThriftType → Bool → String
  | .NamedType n, req =>
    (if req then "" else "?") ++ ((BASIC_NAMED_TO_ZIG n).getD n)
  | .ListType e, req =>
    (if req then "" else "?") ++ ("std.ArrayList(" ++ get_zig_type e true ++ ")")

/-- One write case emitted by `generate_union`: a list alternative gets
a case with an **empty** body — only a comment is emitted (code_gen.py
683-686) — every other alternative a field-begin/payload/field-end
case. -/
inductive UnionWriteCase where
  | listCase (fname : String)
  | payloadCase (fname : String) (tt : TType) (isEnum : Bool) (fid : Int)
deriving DecidableEq, Repr

/-- The write-case loop of `generate_union` (code_gen.py 680-693): the
only code path in `generate_union` that can raise. -/
def genUnionWriteCases (defs : DefsMap) : List Field → Except CgErr (List UnionWriteCase)
  | [] => .ok []
  | f :: fs =>
    match f.type with
    | .ListType _ =>
      match genUnionWriteCases defs fs with
      | .error e => .error e
      | .ok rest => .ok (.listCase f.name :: rest)
    | .NamedType _ =>
      match classify_type f.type defs with
      | .error e => .error e
      | .ok (tt, isEnum) =>
        match checkPayloadCmd tt isEnum with
        | .error e => .error e
        | .ok _ =>
          match genUnionWriteCases defs fs with
          | .error e => .error e
          | .ok rest => .ok (.payloadCase f.name tt isEnum f.id :: rest)

/-- One read-dispatch case emitted for a union alternative
(`_emit_read_union_field_case` never raises; unsupported shapes,
including list alternatives, become the default-skip case). -/
inductive UnionReadCase where
  | stringCase (fname : String)
  | primCase (fname : String) (tt : TType)
  | enumCase (fname : String) (tyName : String)
  | nestedCase (fname : String) (tyName : String)
  | skipCase (fname : String)
deriving DecidableEq, Repr

/-- The read case selected for one union alternative. -/
def genUnionReadCase (defs : DefsMap) (f : Field) : UnionReadCase :=
  match f.type with
  | .NamedType nm =>
    match BASIC_NAMED_TO_TTYPE nm with
    | some .STRING => .stringCase f.name
    | some tt => .primCase f.name tt
    | none =>
      match lookupDef defs nm with
      | some (.enum _) => .enumCase f.name nm
      | some (.struct _) => .nestedCase f.name nm
      | some (.union _) => .nestedCase f.name nm
      | none => .skipCase f.name
  | .ListType _ => .skipCase f.name

/-- The structural content of the code `generate_union` emits. -/
structure UnionGen where
  zigFields : List (String × String)
  fieldTags : List (String × Int)
  writeCases : List UnionWriteCase
  readCases : List UnionReadCase
deriving DecidableEq, Repr

/-- `CodeGenerator.generate_union` (code_gen.py 669-747), with the
emitted text represented structurally: the union's field declarations
(name and Zig type), the FieldTag pairs (plus the implicit
default=32767 sentinel), the write switch cases, and the read dispatch
cases.  The deinit method and the remaining boilerplate raise nothing
and make no decisions.  The only raises in `generate_union` come from
`classify_type` / `emit_write_payload` inside the write-case loop, which
is **not** entered for list-typed alternatives. -/
def generate_union (ud : UnionDef) (defs : DefsMap) : Except CgErr UnionGen :=
  match genUnionWriteCases defs ud.fields with
  | .error e => .error e
  | .ok wcs =>
    .ok ⟨ud.fields.map (fun f => (f.name, get_zig_type f.type true)),
         ud.fields.map (fun f => (f.name, f.id)),
         wcs,
         ud.fields.map (genUnionReadCase defs)⟩

/-- Successful write-case generation implies the union write method's
per-case validation also passes. -/
theorem checkUnionCases_of_gen {defs : DefsMap} {fs : List Field} {wcs : List UnionWriteCase}
    (h : genUnionWriteCases defs fs = .ok wcs) : checkUnionCases defs fs = .ok () := by
  induction fs generalizing wcs with
  | nil => rfl
  | cons f fs ih =>
    unfold genUnionWriteCases at h
    unfold checkUnionCases
    match hft : f.type with
    | .ListType e =>
      simp only [hft] at h ⊢
      match hg : genUnionWriteCases defs fs with
      | .error e2 => simp [hg] at h
      | .ok rest => exact ih hg
    | .NamedType nm =>
      simp only [hft] at h ⊢
      match hcl : classify_type (.NamedType nm) defs with
      | .error e2 => simp [hcl] at h
      | .ok (tt, isEnum) =>
        simp only [hcl] at h ⊢
        match hcp : checkPayloadCmd tt isEnum with
        | .error e2 => simp [hcp] at h
        | .ok u =>
          simp only [hcp] at h ⊢
          match hg : genUnionWriteCases defs fs with
          | .error e2 => simp [hg] at h
          | .ok rest => exact ih hg

/-- Every list-typed alternative contributes its empty `listCase` to the
generated write cases. -/
theorem listCase_mem_of_gen {defs : DefsMap} {fs : List Field} {wcs : List UnionWriteCase}
    (h : genUnionWriteCases defs fs = .ok wcs) :
    ∀ f ∈ fs, isListTy f.type = true → UnionWriteCase.listCase f.name ∈ wcs := by
  induction fs generalizing wcs with
  | nil => intro f hf; cases hf
  | cons g fs ih =>
    intro f hf hl
    unfold genUnionWriteCases at h
    rcases List.mem_cons.mp hf with hsame | hmem
    · subst hsame
      match hft : f.type with
      | .ListType e =>
        simp only [hft] at h
        match hg : genUnionWriteCases defs fs with
        | .error e2 => simp [hg] at h
        | .ok rest =>
          simp only [hg] at h
          cases h
          exact List.mem_cons_self _ _
      | .NamedType nm => rw [hft] at hl; simp [isListTy] at hl
    · match hft : g.type with
      | .ListType e =>
        simp only [hft] at h
        match hg : genUnionWriteCases defs fs with
        | .error e2 => simp [hg] at h
        | .ok rest =>
          simp only [hg] at h
          cases h
          exact List.mem_cons_of_mem _ (ih hg f hmem hl)
      | .NamedType nm =>
        simp only [hft] at h
        match hcl : classify_type (.NamedType nm) defs with
        | .error e2 => simp [hcl] at h
        | .ok (tt, isEnum) =>
          simp only [hcl] at h
          match hcp : checkPayloadCmd tt isEnum with
          | .error e2 => simp [hcp] at h
          | .ok u =>
            simp only [hcp] at h
            match hg : genUnionWriteCases defs fs with
            | .error e2 => simp [hg] at h
            | .ok rest =>
              simp only [hg] at h
              cases h
              exact List.mem_cons_of_mem _ (ih hg f hmem hl)

/-- Claim C6 (counterexample): on the union `union W { 1: list<i32> xs }`
— grammatically valid, containing a list-typed alternative — the code
generator does **not** fail: it returns the union's generated code, with
an empty write case and a skipping read case for the list alternative. -/
theorem c6_counterexample :
    generate_union ⟨"W", [⟨1, false, .ListType (.NamedType "i32"), "xs", none⟩]⟩ [] =
      .ok ⟨[("xs", "std.ArrayList(i32)")], [("xs", 1)],
           [.listCase "xs"], [.skipCase "xs"]⟩ := by
  rfl

/-- Claim C6 (amended): for a union containing a list-typed alternative
(its other alternatives being within the generator's supported subset,
so that the write-case loop succeeds), `generate_union` does **not**
raise: it emits code for the union, the list alternative's write case is
the empty `listCase`, and writing a value holding the list alternative
emits only the begin/stop/end framing — no payload at all. -/
theorem c6_list_union_generated (ud : UnionDef) (defs : DefsMap)
    (wcs : List UnionWriteCase)
    (hgen : genUnionWriteCases defs ud.fields = .ok wcs)
    (hlist : ∃ f ∈ ud.fields, isListTy f.type = true) :
    (∃ g : UnionGen, generate_union ud defs = .ok g ∧ g.writeCases = wcs) ∧
    (∀ f ∈ ud.fields, isListTy f.type = true → UnionWriteCase.listCase f.name ∈ wcs) ∧
    (∀ (fname : String) (pv : Value) (f : Field) (wf : Nat),
      ud.fields.find? (fun g => g.name = fname) = some f → isListTy f.type = true →
      writeDefn (wf + 2) defs (.union ud) (.vUnion fname pv) =
        .ok [.StructBegin, .FieldStop, .StructEnd]) := by
  refine ⟨⟨⟨ud.fields.map (fun f => (f.name, get_zig_type f.type true)),
            ud.fields.map (fun f => (f.name, f.id)), wcs,
            ud.fields.map (genUnionReadCase defs)⟩,
          by simp [generate_union, hgen], rfl⟩, listCase_mem_of_gen hgen, ?_⟩
  intro fname pv f wf hfind hl
  have hchk := checkUnionCases_of_gen hgen
  have hcase : writeUnionCase (wf + 1) defs ud.fields fname pv = .ok [] := by
    unfold writeUnionCase
    simp only [hfind]
    match hft : f.type with
    | .ListType e => simp only [hft]
    | .NamedType nm => rw [hft] at hl; simp [isListTy] at hl
  unfold writeDefn
  simp [hchk, hcase]

/-- Witness for `c6_list_union_generated` on the concrete union
`union W { 1: list<i32> xs }` holding `xs = [10, 20]`. -/
theorem c6_list_union_generated_witness :
    (∃ g : UnionGen,
      generate_union ⟨"W", [⟨1, false, .ListType (.NamedType "i32"), "xs", none⟩]⟩ [] = .ok g ∧
      g.writeCases = [.listCase "xs"]) ∧
    (∀ f ∈ [(⟨1, false, .ListType (.NamedType "i32"), "xs", none⟩ : Field)],
      isListTy f.type = true → UnionWriteCase.listCase f.name ∈ [UnionWriteCase.listCase "xs"]) ∧
    (∀ (fname : String) (pv : Value) (f : Field) (wf : Nat),
      [(⟨1, false, .ListType (.NamedType "i32"), "xs", none⟩ : Field)].find?
          (fun g => g.name = fname) = some f → isListTy f.type = true →
      writeDefn (wf + 2) [] (.union ⟨"W", [⟨1, false, .ListType (.NamedType "i32"), "xs", none⟩]⟩)
          (.vUnion fname pv) = .ok [.StructBegin, .FieldStop, .StructEnd]) :=
  c6_list_union_generated ⟨"W", [⟨1, false, .ListType (.NamedType "i32"), "xs", none⟩]⟩ []
    [.listCase "xs"] rfl
    ⟨⟨1, false, .ListType (.NamedType "i32"), "xs", none⟩, by simp, rfl⟩

/-! ## Write/read duality: helper lemmas -/

/-- The dispatch scan, started at `i`, finds the field at its position
when no earlier field shares its id. -/
theorem findFieldIdxGo_append {f : Field} {fs : List Field} :
    ∀ (pre : List Field) (i : Nat), (∀ g ∈ pre, g.id ≠ f.id) →
    findFieldIdxGo i f.id (pre ++ f :: fs) = some (i + pre.length, f) := by
  intro pre
  induction pre with
  | nil => intro i _; simp [findFieldIdxGo]
  | cons g gs ih =>
    intro i h
    have hg : ¬(g.id = f.id) := h g (List.mem_cons_self g gs)
    rw [List.cons_append]
    unfold findFieldIdxGo
    rw [if_neg hg, ih (i+1) (fun x hx => h x (List.mem_cons_of_mem g hx))]
    simp [List.length_cons]
    omega

/-- With pairwise distinct ids, the wire-id dispatch selects exactly the
declared field, at its declaration index. -/
theorem findFieldIdx_of_decomp {pre fs : List Field} {f : Field}
    (hnd : NodupIds (pre ++ f :: fs)) :
    findFieldIdx (pre ++ f :: fs) f.id = some (pre.length, f) := by
  unfold NodupIds at hnd
  rw [List.map_append, List.map_cons] at hnd
  have h1 : f.id ∉ pre.map (fun x => x.id) := by
    have h2 := (List.nodup_cons.mp (List.nodup_middle.mp hnd)).1
    intro hc
    exact h2 (List.mem_append_left _ hc)
  unfold findFieldIdx
  rw [findFieldIdxGo_append pre 0 (fun g hg heq => h1 (heq ▸ List.mem_map_of_mem _ hg))]
  simp

/-- With pairwise distinct ids, dispatching on a member field's id finds
that very field. -/
theorem findFieldIdx_of_mem {fields : List Field} {f : Field}
    (hmem : f ∈ fields) (hnd : NodupIds fields) :
    ∃ k, findFieldIdx fields f.id = some (k, f) := by
  obtain ⟨pre, fs, rfl⟩ := List.append_of_mem hmem
  exact ⟨pre.length, findFieldIdx_of_decomp hnd⟩

/-- Definitions found through the table inherit the table's
well-formedness. -/
theorem NodupIds_of_lookup {defs : DefsMap} {nm : String} {d : Defn}
    (hwd : WellDefs defs) (h : lookupDef defs nm = some d) : NodupIds (defnFields d) := by
  unfold lookupDef at h
  match hf : defs.find? (fun p => p.1 = nm) with
  | none => rw [hf] at h; cases h
  | some p =>
    rw [hf] at h
    cases h
    exact hwd p (List.mem_of_find?_eq_some hf)

/-- The basic-name table never produces the STOP, LIST, or STRUCT tag. -/
theorem basic_props {nm : String} {tt : TType} (h : BASIC_NAMED_TO_TTYPE nm = some tt) :
    tt ≠ .STOP ∧ tt ≠ .LIST ∧ tt ≠ .STRUCT := by
  unfold BASIC_NAMED_TO_TTYPE at h
  split_ifs at h
  all_goals cases h
  all_goals exact ⟨by decide, by decide, by decide⟩

/-- A conforming instance has as many slots as the field list. -/
theorem ConfSlots.length_eq {defs : DefsMap} {fields : List Field}
    {slots : List (Option Value)} (h : ConfSlots defs fields slots) :
    slots.length = fields.length := by
  induction fields generalizing slots with
  | nil => cases h; rfl
  | cons f fs ih =>
    cases h with
    | consSome _ _ _ _ hcv hcs => simp [ih hcs]
    | consNone _ _ _ hreq hcs => simp [ih hcs]

/-- Required-field validation passes on the is-set bitmap produced by
decoding a conforming encoding: a required field's slot is present, so
its bit is set. -/
theorem validateOk_of_conf {defs : DefsMap} {fields : List Field}
    {slots : List (Option Value)} (h : ConfSlots defs fields slots) :
    validateOk fields (slots.map (fun s => s.isSome)) = true := by
  induction fields generalizing slots with
  | nil => cases h; rfl
  | cons f fs ih =>
    cases h with
    | consSome _ _ _ _ hcv hcs => simpa [validateOk] using ih hcs
    | consNone _ _ _ hreq hcs => simpa [validateOk, hreq] using ih hcs

/-- Taking one past a just-set index splits off the new element. -/
theorem take_succ_set {α : Type} (l : List α) (k : Nat) (x : α) (h : k < l.length) :
    (l.set k x).take (k+1) = l.take k ++ [x] := by
  have h1 : ∀ (l : List α) (k : Nat), (l.set k x).take k = l.take k := by
    intro l
    induction l with
    | nil => simp
    | cons a as ih =>
      intro k
      cases k with
      | zero => simp
      | succ m => simp [List.set_cons_succ, ih m]
  rw [List.take_succ, h1]
  have h2 : (l.set k x)[k]? = some x := by
    simp [List.getElem?_set_self', List.getElem?_eq_getElem h]
  rw [h2]
  rfl

/-- Taking one past an index holding `x` splits off that element. -/
theorem take_succ_of_getElem {α : Type} (l : List α) (k : Nat) (x : α)
    (h : l[k]? = some x) : l.take (k+1) = l.take k ++ [x] := by
  rw [List.take_succ, h]
  rfl

/-- What the generated field cases do with an encoded payload of a named
type: the decode each case performs — a primitive read, an i32 enum
read, or `readCatchThrift` on a nested definition — reads back exactly
the written value and consumes exactly the written frames. -/
def PayloadRB (defs : DefsMap) (t : ThriftType) (v : Value) (enc : List Frame) : Prop :=
  match t with
  | .NamedType nm =>
    match BASIC_NAMED_TO_TTYPE nm with
    | some .STRING => ∃ s, v = .vStr s ∧ enc = [.FBinary s]
    | some tt => ∀ rest, readBasic tt (enc ++ rest) = .ok (v, rest)
    | none =>
      match lookupDef defs nm with
      | some (.enum _) => ∃ k, v = .vEnum k ∧ enc = [.FI32 k]
      | some (.struct _) =>
        ∀ rest, ∃ n0, ∀ n, n0 ≤ n → readNestedF n defs nm (enc ++ rest) = .ok (some v, rest)
      | some (.union _) =>
        ∀ rest, ∃ n0, ∀ n, n0 ≤ n → readNestedF n defs nm (enc ++ rest) = .ok (some v, rest)
      | none => False
  | .ListType _ => False

/-- Duality statement for payload writes (`emit_write_payload`). -/
def StmtE (wf : Nat) : Prop :=
  ∀ defs t v enc, WellDefs defs → ConfT defs t v →
    writePayload wf defs t v = .ok enc → PayloadRB defs t v enc

/-- Duality statement for struct write methods. -/
def StmtA (wf : Nat) : Prop :=
  ∀ defs sd slots enc, WellDefs defs → NodupIds sd.fields →
    ConfSlots defs sd.fields slots →
    writeDefn wf defs (.struct sd) (.vStruct slots) = .ok enc →
    ∀ rest, ∃ n0, ∀ n, n0 ≤ n → structReadF n sd defs (enc ++ rest) = .ok (slots, rest)

/-- Duality statement for union write methods (for a value holding a
non-list alternative). -/
def StmtB (wf : Nat) : Prop :=
  ∀ defs ud fname f pv enc, WellDefs defs → NodupIds ud.fields →
    ud.fields.find? (fun g => g.name = fname) = some f →
    isListTy f.type = false → ConfT defs f.type pv →
    writeDefn wf defs (.union ud) (.vUnion fname pv) = .ok enc →
    ∀ rest, ∃ n0, ∀ n, n0 ≤ n →
      unionReadF n ud defs (enc ++ rest) = .ok (.vUnion fname pv, rest)

/-- Duality statement for the field-write sequence of a struct suffix:
the read loop fills the remaining slots and is-set bits and stops at the
field-stop marker. -/
def StmtC (wf : Nat) : Prop :=
  ∀ defs sd pre flds slots enc, WellDefs defs → NodupIds sd.fields →
    sd.fields = pre ++ flds → ConfSlots defs flds slots →
    writeFields wf defs flds slots = .ok enc →
    ∀ obj isset, obj.length = sd.fields.length → isset.length = sd.fields.length →
    (∀ j, pre.length ≤ j → j < obj.length → obj[j]? = some none) →
    (∀ j, pre.length ≤ j → j < isset.length → isset[j]? = some false) →
    ∀ rest, ∃ n0, ∀ n, n0 ≤ n →
      structLoopF n sd defs obj isset (enc ++ .FieldStop :: rest) =
        .ok (obj.take pre.length ++ slots,
             isset.take pre.length ++ slots.map (fun s => s.isSome), rest)

/-- Duality statement for list element writes. -/
def StmtD (wf : Nat) : Prop :=
  ∀ defs elemT items enc, WellDefs defs → ConfItems defs elemT items →
    writeListItems wf defs elemT items = .ok enc →
    ∀ acc rest, ∃ n0, ∀ n, n0 ≤ n →
      readListItemsF n defs elemT items.length acc (enc ++ rest) = .ok (acc ++ items, rest)

/-- Duality statement for a single union write case: its frames are one
field marker, a payload, and a field-end marker, and the union's field
dispatch decodes them back to the held variant. -/
def StmtF (wf : Nat) : Prop :=
  ∀ defs ud fname f pv enc, WellDefs defs → NodupIds ud.fields →
    ud.fields.find? (fun g => g.name = fname) = some f →
    isListTy f.type = false → ConfT defs f.type pv →
    writeUnionCase wf defs ud.fields fname pv = .ok enc →
    ∃ tt pbody, enc = .FieldBegin tt f.id :: pbody ++ [.FieldEnd] ∧ tt ≠ .STOP ∧
      ∀ rest, ∃ n0, ∀ n, n0 ≤ n →
        unionFieldF n ud defs tt f.id (pbody ++ rest) = .ok (some (.vUnion fname pv), rest)

/-- Unfolding the struct field loop at a stop marker. -/
theorem structLoopF_stop (n : Nat) (sd : StructDef) (defs : DefsMap)
    (obj : List (Option Value)) (isset : List Bool) (r : List Frame) :
    structLoopF (n+1) sd defs obj isset (.FieldStop :: r) = .ok (obj, isset, r) := rfl

/-- Unfolding the struct field loop at a field marker. -/
theorem structLoopF_field (n : Nat) (sd : StructDef) (defs : DefsMap)
    (obj : List (Option Value)) (isset : List Bool) (tt : TType) (fid : Int)
    (r : List Frame) (h : tt ≠ .STOP) :
    structLoopF (n+1) sd defs obj isset (.FieldBegin tt fid :: r) =
      match structFieldF n sd defs obj isset tt fid r with
      | .error e => .error e
      | .ok (obj', isset', r2) =>
        match rdFieldEnd r2 with
        | .error e => .error e
        | .ok r3 => structLoopF n sd defs obj' isset' r3 := by
  have heq : structLoopF (n+1) sd defs obj isset (.FieldBegin tt fid :: r) =
      (if tt = .STOP then .ok (obj, isset, r)
       else
        match structFieldF n sd defs obj isset tt fid r with
        | .error e => .error e
        | .ok (obj', isset', r2) =>
          match rdFieldEnd r2 with
          | .error e => .error e
          | .ok r3 => structLoopF n sd defs obj' isset' r3) := rfl
  rw [heq, if_neg h]

/-- Unfolding the union field loop at a stop marker. -/
theorem unionLoopF_stop (n : Nat) (ud : UnionDef) (defs : DefsMap)
    (obj : Option Value) (r : List Frame) :
    unionLoopF (n+1) ud defs obj (.FieldStop :: r) = .ok (obj, r) := rfl

/-- Unfolding the union field loop at a field marker. -/
theorem unionLoopF_field (n : Nat) (ud : UnionDef) (defs : DefsMap)
    (obj : Option Value) (tt : TType) (fid : Int) (r : List Frame) (h : tt ≠ .STOP) :
    unionLoopF (n+1) ud defs obj (.FieldBegin tt fid :: r) =
      match unionFieldF n ud defs tt fid r with
      | .error e => .error e
      | .ok (res, r2) =>
        match rdFieldEnd r2 with
        | .error e => .error e
        | .ok r3 =>
          match res with
          | some v => unionLoopF n ud defs (some v) r3
          | none => unionLoopF n ud defs obj r3 := by
  have heq : unionLoopF (n+1) ud defs obj (.FieldBegin tt fid :: r) =
      (if tt = .STOP then .ok (obj, r)
       else
        match unionFieldF n ud defs tt fid r with
        | .error e => .error e
        | .ok (res, r2) =>
          match rdFieldEnd r2 with
          | .error e => .error e
          | .ok r3 =>
            match res with
            | some v => unionLoopF n ud defs (some v) r3
            | none => unionLoopF n ud defs obj r3) := rfl
  rw [heq, if_neg h]

/-- A successful classification never yields the STOP or LIST tag (so a
written field marker is never mistaken for a stop marker). -/
theorem classify_ne_stop {t : ThriftType} {defs : DefsMap} {tt : TType} {ie : Bool}
    (h : classify_type t defs = .ok (tt, ie)) : tt ≠ .STOP ∧ tt ≠ .LIST := by
  unfold classify_type at h
  match t with
  | .ListType e => cases h
  | .NamedType nm =>
    dsimp only at h
    match hb : BASIC_NAMED_TO_TTYPE nm with
    | some tt' =>
      rw [hb] at h
      cases h
      obtain ⟨h1, h2, _⟩ := basic_props hb
      exact ⟨h1, h2⟩
    | none =>
      rw [hb] at h
      match hlk : lookupDef defs nm with
      | none => rw [hlk] at h; cases h
      | some (.enum ed) => rw [hlk] at h; cases h; exact ⟨by decide, by decide⟩
      | some (.struct sd) => rw [hlk] at h; cases h; exact ⟨by decide, by decide⟩
      | some (.union ud) => rw [hlk] at h; cases h; exact ⟨by decide, by decide⟩

/-- The struct field case decodes a written payload of a named type into
its slot and sets the is-set bit: obtained from the payload read-back
property, for the wire tag the writer stamped. -/
theorem structFieldF_reads (sd : StructDef) (defs : DefsMap) (obj : List (Option Value))
    (isset : List Bool) {k : Nat} {f : Field} {nm : String} {tt : TType} {ie : Bool}
    {v : Value} {pbody : List Frame}
    (hfi : findFieldIdx sd.fields f.id = some (k, f))
    (hft : f.type = .NamedType nm)
    (hcl : classify_type (.NamedType nm) defs = .ok (tt, ie))
    (hrb : PayloadRB defs (.NamedType nm) v pbody) (rest : List Frame) :
    ∃ n0, ∀ n, n0 ≤ n → structFieldF (n+1) sd defs obj isset tt f.id (pbody ++ rest) =
      .ok (obj.set k (some v), isset.set k true, rest) := by
  unfold PayloadRB at hrb
  unfold classify_type at hcl
  dsimp only at hcl hrb
  match hb : BASIC_NAMED_TO_TTYPE nm with
  | some tt' =>
    rw [hb] at hcl hrb
    cases hcl
    cases tt with
    | STRING =>
      dsimp only at hrb
      obtain ⟨s, rfl, rfl⟩ := hrb
      refine ⟨0, fun n _ => ?_⟩
      unfold structFieldF
      simp [hfi, hft, hb, rdBinary]
    | BOOL =>
      dsimp only at hrb
      refine ⟨0, fun n _ => ?_⟩
      unfold structFieldF
      simp [hfi, hft, hb, hrb rest]
    | BYTE =>
      dsimp only at hrb
      refine ⟨0, fun n _ => ?_⟩
      unfold structFieldF
      simp [hfi, hft, hb, hrb rest]
    | I16 =>
      dsimp only at hrb
      refine ⟨0, fun n _ => ?_⟩
      unfold structFieldF
      simp [hfi, hft, hb, hrb rest]
    | I32 =>
      dsimp only at hrb
      refine ⟨0, fun n _ => ?_⟩
      unfold structFieldF
      simp [hfi, hft, hb, hrb rest]
    | I64 =>
      dsimp only at hrb
      refine ⟨0, fun n _ => ?_⟩
      unfold structFieldF
      simp [hfi, hft, hb, hrb rest]
    | DOUBLE =>
      dsimp only at hrb
      have hcon := hrb []
      simp [readBasic, rdDouble] at hcon
    | STOP => exact absurd rfl (basic_props hb).1
    | LIST => exact absurd rfl (basic_props hb).2.1
    | STRUCT => exact absurd rfl (basic_props hb).2.2
  | none =>
    rw [hb] at hcl hrb
    match hlk : lookupDef defs nm with
    | none => rw [hlk] at hrb; cases hrb
    | some (.enum ed) =>
      rw [hlk] at hcl hrb
      cases hcl
      dsimp only at hrb
      obtain ⟨k', rfl, rfl⟩ := hrb
      refine ⟨0, fun n _ => ?_⟩
      unfold structFieldF
      simp [hfi, hft, hb, hlk, rdI32]
    | some (.struct sd') =>
      rw [hlk] at hcl hrb
      cases hcl
      dsimp only at hrb
      obtain ⟨n0, hn0⟩ := hrb rest
      refine ⟨n0, fun n hn => ?_⟩
      unfold structFieldF
      simp [hfi, hft, hb, hlk, hn0 n hn]
    | some (.union ud') =>
      rw [hlk] at hcl hrb
      cases hcl
      dsimp only at hrb
      obtain ⟨n0, hn0⟩ := hrb rest
      refine ⟨n0, fun n hn => ?_⟩
      unfold structFieldF
      simp [hfi, hft, hb, hlk, hn0 n hn]

/-- The union field case decodes a written payload of a named type into
the completed union value. -/
theorem unionFieldF_reads (ud : UnionDef) (defs : DefsMap) {k : Nat} {f : Field}
    {nm : String} {tt : TType} {ie : Bool} {pv : Value} {pbody : List Frame}
    (hfi : findFieldIdx ud.fields f.id = some (k, f))
    (hft : f.type = .NamedType nm)
    (hcl : classify_type (.NamedType nm) defs = .ok (tt, ie))
    (hrb : PayloadRB defs (.NamedType nm) pv pbody) (rest : List Frame) :
    ∃ n0, ∀ n, n0 ≤ n → unionFieldF (n+1) ud defs tt f.id (pbody ++ rest) =
      .ok (some (.vUnion f.name pv), rest) := by
  unfold PayloadRB at hrb
  unfold classify_type at hcl
  dsimp only at hcl hrb
  match hb : BASIC_NAMED_TO_TTYPE nm with
  | some tt' =>
    rw [hb] at hcl hrb
    cases hcl
    cases tt with
    | STRING =>
      dsimp only at hrb
      obtain ⟨s, rfl, rfl⟩ := hrb
      refine ⟨0, fun n _ => ?_⟩
      unfold unionFieldF
      simp [hfi, hft, hb, rdBinary]
    | BOOL =>
      dsimp only at hrb
      refine ⟨0, fun n _ => ?_⟩
      unfold unionFieldF
      simp [hfi, hft, hb, hrb rest]
    | BYTE =>
      dsimp only at hrb
      refine ⟨0, fun n _ => ?_⟩
      unfold unionFieldF
      simp [hfi, hft, hb, hrb rest]
    | I16 =>
      dsimp only at hrb
      refine ⟨0, fun n _ => ?_⟩
      unfold unionFieldF
      simp [hfi, hft, hb, hrb rest]
    | I32 =>
      dsimp only at hrb
      refine ⟨0, fun n _ => ?_⟩
      unfold unionFieldF
      simp [hfi, hft, hb, hrb rest]
    | I64 =>
      dsimp only at hrb
      refine ⟨0, fun n _ => ?_⟩
      unfold unionFieldF
      simp [hfi, hft, hb, hrb rest]
    | DOUBLE =>
      dsimp only at hrb
      have hcon := hrb []
      simp [readBasic, rdDouble] at hcon
    | STOP => exact absurd rfl (basic_props hb).1
    | LIST => exact absurd rfl (basic_props hb).2.1
    | STRUCT => exact absurd rfl (basic_props hb).2.2
  | none =>
    rw [hb] at hcl hrb
    match hlk : lookupDef defs nm with
    | none => rw [hlk] at hrb; cases hrb
    | some (.enum ed) =>
      rw [hlk] at hcl hrb
      cases hcl
      dsimp only at hrb
      obtain ⟨k', rfl, rfl⟩ := hrb
      refine ⟨0, fun n _ => ?_⟩
      unfold unionFieldF
      simp [hfi, hft, hb, hlk, rdI32]
    | some (.struct sd') =>
      rw [hlk] at hcl hrb
      cases hcl
      dsimp only at hrb
      obtain ⟨n0, hn0⟩ := hrb rest
      refine ⟨n0, fun n hn => ?_⟩
      unfold unionFieldF
      simp [hfi, hft, hb, hlk, hn0 n hn]
    | some (.union ud') =>
      rw [hlk] at hcl hrb
      cases hcl
      dsimp only at hrb
      obtain ⟨n0, hn0⟩ := hrb rest
      refine ⟨n0, fun n hn => ?_⟩
      unfold unionFieldF
      simp [hfi, hft, hb, hlk, hn0 n hn]

/-- The conjunction of all duality statements at one writer fuel. -/
def AllStmts (wf : Nat) : Prop :=
  StmtE wf ∧ StmtF wf ∧ StmtA wf ∧ StmtB wf ∧ StmtC wf ∧ StmtD wf

/-- At writer fuel zero no write succeeds, so every duality statement
holds vacuously. -/
theorem duality_zero : AllStmts 0 := by
  refine ⟨?_, ?_, ?_, ?_, ?_, ?_⟩
  · intro defs t v enc _ _ hw; cases hw
  · intro defs ud fname f pv enc _ _ _ _ _ hw; cases hw
  · intro defs sd slots enc _ _ _ hw; cases hw
  · intro defs ud fname f pv enc _ _ _ _ _ hw; cases hw
  · intro defs sd pre flds slots enc _ _ _ _ hw; cases hw
  · intro defs elemT items enc _ _ hw; cases hw


/-- One-step unfolding of `writePayload` at positive fuel. -/
theorem writePayload_succ (n : Nat) (defs : DefsMap) (t : ThriftType) (v : Value) :
    writePayload (n+1) defs t v =
      match classify_type t defs with
      | .error e => .error e
      | .ok (tt, isEnum) =>
        if isEnum then
          match v with
          | .vEnum k => .ok [.FI32 k]
          | _ => .error .shapeError
        else if tt = .STRUCT then
          match t with
          | .NamedType nm =>
            match lookupDef defs nm with
            | some d => writeDefn n defs d v
            | none => .error (.keyError nm)
          | .ListType _ => .error .shapeError
        else writeBasic tt v := rfl

/-- One-step unfolding of `readNestedF` at positive fuel. -/
theorem readNestedF_succ (n : Nat) (defs : DefsMap) (nm : String) (fs : List Frame) :
    readNestedF (n+1) defs nm fs =
      (match lookupDef defs nm with
      | some (.struct sd) =>
        match structReadF n sd defs fs with
        | .ok (slots, r) => .ok (some (.vStruct slots), r)
        | .error (.requiredFieldMissing r) => .ok (none, r)
        | .error (.cantParseUnion r) => .ok (none, r)
        | .error e => .error e
      | some (.union ud) =>
        match unionReadF n ud defs fs with
        | .ok (v, r) => .ok (some v, r)
        | .error (.requiredFieldMissing r) => .ok (none, r)
        | .error (.cantParseUnion r) => .ok (none, r)
        | .error e => .error e
      | _ => .error .genUnreachable) := rfl

/-- Step case for payload duality. -/
theorem stmtE_step (m : Nat) (ih : ∀ k, k ≤ m → AllStmts k) : StmtE (m+1) := by
  intro defs t v enc hwd hc hw
  cases hc with
  | bool b =>
    rw [show writePayload (m+1) defs (.NamedType "bool") (.vBool b) = .ok [.FBool b]
      from rfl] at hw
    cases hw
    exact fun rest => rfl
  | i8 n =>
    rw [show writePayload (m+1) defs (.NamedType "i8") (.vI8 n) = .ok [.FI08 n]
      from rfl] at hw
    cases hw
    exact fun rest => rfl
  | i16 n =>
    rw [show writePayload (m+1) defs (.NamedType "i16") (.vI16 n) = .ok [.FI16 n]
      from rfl] at hw
    cases hw
    exact fun rest => rfl
  | i32 n =>
    rw [show writePayload (m+1) defs (.NamedType "i32") (.vI32 n) = .ok [.FI32 n]
      from rfl] at hw
    cases hw
    exact fun rest => rfl
  | i64 n =>
    rw [show writePayload (m+1) defs (.NamedType "i64") (.vI64 n) = .ok [.FI64 n]
      from rfl] at hw
    cases hw
    exact fun rest => rfl
  | str s =>
    rw [show writePayload (m+1) defs (.NamedType "string") (.vStr s) = .ok [.FBinary s]
      from rfl] at hw
    cases hw
    exact ⟨s, rfl, rfl⟩
  | bin s =>
    rw [show writePayload (m+1) defs (.NamedType "binary") (.vStr s) = .ok [.FBinary s]
      from rfl] at hw
    cases hw
    exact ⟨s, rfl, rfl⟩
  | enumC nm ed k hlk =>
    match hb : BASIC_NAMED_TO_TTYPE nm with
    | some tt =>
      obtain ⟨h1, h2, h3⟩ := basic_props hb
      have hcl : classify_type (.NamedType nm) defs = .ok (tt, false) := by
        unfold classify_type; dsimp only; rw [hb]
      rw [writePayload_succ, hcl] at hw
      dsimp only at hw
      rw [if_neg (by simp), if_neg h3] at hw
      cases tt <;> simp [writeBasic] at hw
    | none =>
      have hcl : classify_type (.NamedType nm) defs = .ok (.I32, true) := by
        unfold classify_type; dsimp only; rw [hb, hlk]
      rw [writePayload_succ, hcl] at hw
      dsimp only at hw
      rw [if_pos rfl] at hw
      cases hw
      unfold PayloadRB; dsimp only
      rw [hb, hlk]
      exact ⟨k, rfl, rfl⟩
  | structC nm sd slots hlk hcs =>
    match hb : BASIC_NAMED_TO_TTYPE nm with
    | some tt =>
      obtain ⟨h1, h2, h3⟩ := basic_props hb
      have hcl : classify_type (.NamedType nm) defs = .ok (tt, false) := by
        unfold classify_type; dsimp only; rw [hb]
      rw [writePayload_succ, hcl] at hw
      dsimp only at hw
      rw [if_neg (by simp), if_neg h3] at hw
      cases tt <;> simp [writeBasic] at hw
    | none =>
      have hcl : classify_type (.NamedType nm) defs = .ok (.STRUCT, false) := by
        unfold classify_type; dsimp only; rw [hb, hlk]
      rw [writePayload_succ, hcl] at hw
      dsimp only at hw
      rw [if_neg (by simp), if_pos rfl] at hw
      rw [hlk] at hw
      dsimp only at hw
      have hnd : NodupIds sd.fields := NodupIds_of_lookup hwd hlk
      have hra := (ih m (le_refl m)).2.2.1 defs sd slots enc hwd hnd hcs hw
      unfold PayloadRB; dsimp only
      rw [hb, hlk]
      intro rest
      obtain ⟨n0, hn0⟩ := hra rest
      refine ⟨n0 + 1, fun n hn => ?_⟩
      obtain ⟨n1, rfl⟩ : ∃ n1, n = n1 + 1 := ⟨n - 1, by omega⟩
      rw [readNestedF_succ, hlk]
      dsimp only
      rw [hn0 n1 (by omega)]
  | unionC nm ud fname f pv hlk hfind hnl hcpv =>
    match hb : BASIC_NAMED_TO_TTYPE nm with
    | some tt =>
      obtain ⟨h1, h2, h3⟩ := basic_props hb
      have hcl : classify_type (.NamedType nm) defs = .ok (tt, false) := by
        unfold classify_type; dsimp only; rw [hb]
      rw [writePayload_succ, hcl] at hw
      dsimp only at hw
      rw [if_neg (by simp), if_neg h3] at hw
      cases tt <;> simp [writeBasic] at hw
    | none =>
      have hcl : classify_type (.NamedType nm) defs = .ok (.STRUCT, false) := by
        unfold classify_type; dsimp only; rw [hb, hlk]
      rw [writePayload_succ, hcl] at hw
      dsimp only at hw
      rw [if_neg (by simp), if_pos rfl] at hw
      rw [hlk] at hw
      dsimp only at hw
      have hnd : NodupIds ud.fields := NodupIds_of_lookup hwd hlk
      have hra := (ih m (le_refl m)).2.2.2.1 defs ud fname f pv enc hwd hnd hfind hnl hcpv hw
      unfold PayloadRB; dsimp only
      rw [hb, hlk]
      intro rest
      obtain ⟨n0, hn0⟩ := hra rest
      refine ⟨n0 + 1, fun n hn => ?_⟩
      obtain ⟨n1, rfl⟩ : ∃ n1, n = n1 + 1 := ⟨n - 1, by omega⟩
      rw [readNestedF_succ, hlk]
      dsimp only
      rw [hn0 n1 (by omega)]
  | listC elemT items hci =>
    rw [writePayload_succ] at hw
    have hcl : classify_type (.ListType elemT) defs = .error .notImplementedType := rfl
    rw [hcl] at hw
    cases hw

/-- One-step unfolding of `writeListItems` at positive fuel. -/
theorem writeListItems_succ (n : Nat) (defs : DefsMap) (elemT : ThriftType)
    (items : List Value) :
    writeListItems (n+1) defs elemT items =
      (match items with
      | [] => .ok []
      | x :: xs =>
        match writePayload n defs elemT x with
        | .error e => .error e
        | .ok head =>
          match writeListItems n defs elemT xs with
          | .error e => .error e
          | .ok tail => .ok (head ++ tail)) := rfl

/-- One-step unfolding of `readListItemsF` at positive fuel. -/
theorem readListItemsF_succ (n : Nat) (defs : DefsMap) (elemT : ThriftType) (cnt : Nat)
    (acc : List Value) (fs : List Frame) :
    readListItemsF (n+1) defs elemT cnt acc fs =
      (match cnt with
      | 0 => .ok (acc, fs)
      | c+1 =>
        match elemT with
        | .NamedType nm =>
          match BASIC_NAMED_TO_TTYPE nm with
          | some tt =>
            if tt = .STRING then
              match rdBinary fs with
              | .error e => .error e
              | .ok (s, r) => readListItemsF n defs elemT c (acc ++ [.vStr s]) r
            else
              match readBasic tt fs with
              | .error e => .error e
              | .ok (v, r) => readListItemsF n defs elemT c (acc ++ [v]) r
          | none =>
            match lookupDef defs nm with
            | some (.enum _) =>
              match rdI32 fs with
              | .error e => .error e
              | .ok (k, r) => readListItemsF n defs elemT c (acc ++ [.vEnum k]) r
            | some (.struct _) =>
              match readNestedF n defs nm fs with
              | .error e => .error e
              | .ok (some v, r) => readListItemsF n defs elemT c (acc ++ [v]) r
              | .ok (none, r) => readListItemsF n defs elemT c acc r
            | some (.union _) =>
              match readNestedF n defs nm fs with
              | .error e => .error e
              | .ok (some v, r) => readListItemsF n defs elemT c (acc ++ [v]) r
              | .ok (none, r) => readListItemsF n defs elemT c acc r
            | none => .error .genUnreachable
        | .ListType _ => .error .genUnreachable) := rfl

/-- Step case for list item duality. -/
theorem stmtD_step (m : Nat) (ih : ∀ k, k ≤ m → AllStmts k) : StmtD (m+1) := by
  intro defs elemT items enc hwd hci hw
  cases hci with
  | nil =>
    rw [show writeListItems (m+1) defs elemT [] = .ok [] from rfl] at hw
    cases hw
    intro acc rest
    refine ⟨1, fun n hn => ?_⟩
    obtain ⟨n1, rfl⟩ : ∃ n1, n = n1 + 1 := ⟨n - 1, by omega⟩
    simp [readListItemsF_succ]
  | cons elemT v vs hcv hcs =>
    rw [writeListItems_succ] at hw
    dsimp only at hw
    cases hwp : writePayload m defs elemT v with
    | error e => rw [hwp] at hw; cases hw
    | ok head =>
      rw [hwp] at hw
      dsimp only at hw
      cases hwl : writeListItems m defs elemT vs with
      | error e => rw [hwl] at hw; cases hw
      | ok tail =>
        rw [hwl] at hw
        dsimp only at hw
        cases hw
        have hE : PayloadRB defs elemT v head :=
          (ih m (le_refl m)).1 defs elemT v head hwd hcv hwp
        have hD := (ih m (le_refl m)).2.2.2.2.2 defs elemT vs tail hwd hcs hwl
        intro acc rest
        cases elemT with
        | ListType e =>
          unfold PayloadRB at hE
          exact hE.elim
        | NamedType nm =>
          unfold PayloadRB at hE
          dsimp only at hE
          match hb : BASIC_NAMED_TO_TTYPE nm with
          | some tt =>
            rw [hb] at hE
            obtain ⟨h1, h2, h3⟩ := basic_props hb
            cases tt with
            | STOP => exact absurd rfl h1
            | LIST => exact absurd rfl h2
            | STRUCT => exact absurd rfl h3
            | STRING =>
              dsimp only at hE
              obtain ⟨s, rfl, rfl⟩ := hE
              obtain ⟨n0, hn0⟩ := hD (acc ++ [Value.vStr s]) rest
              refine ⟨n0 + 1, fun n hn => ?_⟩
              obtain ⟨n1, rfl⟩ : ∃ n1, n = n1 + 1 := ⟨n - 1, by omega⟩
              simp [readListItemsF_succ, hb, rdBinary, hn0 n1 (by omega)]
            | BOOL =>
              dsimp only at hE
              obtain ⟨n0, hn0⟩ := hD (acc ++ [v]) rest
              refine ⟨n0 + 1, fun n hn => ?_⟩
              obtain ⟨n1, rfl⟩ : ∃ n1, n = n1 + 1 := ⟨n - 1, by omega⟩
              simp [readListItemsF_succ, hb, hE (tail ++ rest), hn0 n1 (by omega)]
            | BYTE =>
              dsimp only at hE
              obtain ⟨n0, hn0⟩ := hD (acc ++ [v]) rest
              refine ⟨n0 + 1, fun n hn => ?_⟩
              obtain ⟨n1, rfl⟩ : ∃ n1, n = n1 + 1 := ⟨n - 1, by omega⟩
              simp [readListItemsF_succ, hb, hE (tail ++ rest), hn0 n1 (by omega)]
            | I16 =>
              dsimp only at hE
              obtain ⟨n0, hn0⟩ := hD (acc ++ [v]) rest
              refine ⟨n0 + 1, fun n hn => ?_⟩
              obtain ⟨n1, rfl⟩ : ∃ n1, n = n1 + 1 := ⟨n - 1, by omega⟩
              simp [readListItemsF_succ, hb, hE (tail ++ rest), hn0 n1 (by omega)]
            | I32 =>
              dsimp only at hE
              obtain ⟨n0, hn0⟩ := hD (acc ++ [v]) rest
              refine ⟨n0 + 1, fun n hn => ?_⟩
              obtain ⟨n1, rfl⟩ : ∃ n1, n = n1 + 1 := ⟨n - 1, by omega⟩
              simp [readListItemsF_succ, hb, hE (tail ++ rest), hn0 n1 (by omega)]
            | I64 =>
              dsimp only at hE
              obtain ⟨n0, hn0⟩ := hD (acc ++ [v]) rest
              refine ⟨n0 + 1, fun n hn => ?_⟩
              obtain ⟨n1, rfl⟩ : ∃ n1, n = n1 + 1 := ⟨n - 1, by omega⟩
              simp [readListItemsF_succ, hb, hE (tail ++ rest), hn0 n1 (by omega)]
            | DOUBLE =>
              dsimp only at hE
              obtain ⟨n0, hn0⟩ := hD (acc ++ [v]) rest
              refine ⟨n0 + 1, fun n hn => ?_⟩
              obtain ⟨n1, rfl⟩ : ∃ n1, n = n1 + 1 := ⟨n - 1, by omega⟩
              simp [readListItemsF_succ, hb, hE (tail ++ rest), hn0 n1 (by omega)]
          | none =>
            rw [hb] at hE
            match hlk : lookupDef defs nm with
            | none =>
              rw [hlk] at hE
              exact hE.elim
            | some (.enum ed) =>
              rw [hlk] at hE
              dsimp only at hE
              obtain ⟨k, rfl, rfl⟩ := hE
              obtain ⟨n0, hn0⟩ := hD (acc ++ [Value.vEnum k]) rest
              refine ⟨n0 + 1, fun n hn => ?_⟩
              obtain ⟨n1, rfl⟩ : ∃ n1, n = n1 + 1 := ⟨n - 1, by omega⟩
              simp [readListItemsF_succ, hb, hlk, rdI32, hn0 n1 (by omega)]
            | some (.struct sd) =>
              rw [hlk] at hE
              dsimp only at hE
              obtain ⟨nE, hnE⟩ := hE (tail ++ rest)
              obtain ⟨n0, hn0⟩ := hD (acc ++ [v]) rest
              refine ⟨nE + n0 + 1, fun n hn => ?_⟩
              obtain ⟨n1, rfl⟩ : ∃ n1, n = n1 + 1 := ⟨n - 1, by omega⟩
              simp [readListItemsF_succ, hb, hlk, hnE n1 (by omega), hn0 n1 (by omega)]
            | some (.union ud) =>
              rw [hlk] at hE
              dsimp only at hE
              obtain ⟨nE, hnE⟩ := hE (tail ++ rest)
              obtain ⟨n0, hn0⟩ := hD (acc ++ [v]) rest
              refine ⟨nE + n0 + 1, fun n hn => ?_⟩
              obtain ⟨n1, rfl⟩ : ∃ n1, n = n1 + 1 := ⟨n - 1, by omega⟩
              simp [readListItemsF_succ, hb, hlk, hnE n1 (by omega), hn0 n1 (by omega)]

/-- One-step unfolding of `writeUnionCase` at positive fuel. -/
theorem writeUnionCase_succ (n : Nat) (defs : DefsMap) (fields : List Field)
    (fname : String) (pv : Value) :
    writeUnionCase (n+1) defs fields fname pv =
      (match fields.find? (fun f => f.name = fname) with
      | none => .error .shapeError
      | some f =>
        match f.type with
        | .ListType _ => .ok []
        | .NamedType _ =>
          match classify_type f.type defs with
          | .error e => .error e
          | .ok (tt, _) =>
            match writePayload n defs f.type pv with
            | .error e => .error e
            | .ok body => .ok (.FieldBegin tt f.id :: body ++ [.FieldEnd])) := rfl

/-- One-step unfolding of `writeDefn` at positive fuel. -/
theorem writeDefn_succ (n : Nat) (defs : DefsMap) (d : Defn) (v : Value) :
    writeDefn (n+1) defs d v =
      (match d with
      | .enum _ => .error .shapeError
      | .struct sd =>
        match v with
        | .vStruct slots =>
          match writeFields n defs sd.fields slots with
          | .error e => .error e
          | .ok body => .ok (.StructBegin :: body ++ [.FieldStop, .StructEnd])
        | _ => .error .shapeError
      | .union ud =>
        match v with
        | .vUnion fname pv =>
          match checkUnionCases defs ud.fields with
          | .error e => .error e
          | .ok _ =>
            match writeUnionCase n defs ud.fields fname pv with
            | .error e => .error e
            | .ok body => .ok (.StructBegin :: body ++ [.FieldStop, .StructEnd])
        | _ => .error .shapeError) := rfl

/-- One-step unfolding of `structReadF` at positive fuel. -/
theorem structReadF_succ (n : Nat) (sd : StructDef) (defs : DefsMap) (fs : List Frame) :
    structReadF (n+1) sd defs fs =
      (match rdStructBegin fs with
      | .error e => .error e
      | .ok r =>
        match structLoopF n sd defs (sd.fields.map (fun _ => none))
            (sd.fields.map (fun _ => false)) r with
        | .error e => .error e
        | .ok (obj, isset, r2) =>
          match rdStructEnd r2 with
          | .error e => .error e
          | .ok r3 =>
            if validateOk sd.fields isset then .ok (obj, r3)
            else .error (.requiredFieldMissing r3)) := rfl

/-- One-step unfolding of `unionReadF` at positive fuel. -/
theorem unionReadF_succ (n : Nat) (ud : UnionDef) (defs : DefsMap) (fs : List Frame) :
    unionReadF (n+1) ud defs fs =
      (match rdStructBegin fs with
      | .error e => .error e
      | .ok r =>
        match unionLoopF n ud defs none r with
        | .error e => .error e
        | .ok (obj, r2) =>
          match rdStructEnd r2 with
          | .error e => .error e
          | .ok r3 =>
            match obj with
            | some v => .ok (v, r3)
            | none => .error (.cantParseUnion r3)) := rfl

/-- Step case for a single union write case. -/
theorem stmtF_step (m : Nat) (ih : ∀ k, k ≤ m → AllStmts k) : StmtF (m+1) := by
  intro defs ud fname f pv enc hwd hnd hfind hnl hcpv hw
  rw [writeUnionCase_succ, hfind] at hw
  dsimp only at hw
  have hfn : f.name = fname := by
    have h2 := List.find?_some hfind
    simpa using h2
  cases hft : f.type with
  | ListType e =>
    rw [hft] at hnl
    simp [isListTy] at hnl
  | NamedType nm =>
    rw [hft] at hw hcpv
    dsimp only at hw
    cases hcc : classify_type (.NamedType nm) defs with
    | error e => rw [hcc] at hw; cases hw
    | ok p =>
      obtain ⟨tt, ie⟩ := p
      rw [hcc] at hw
      dsimp only at hw
      cases hwp : writePayload m defs (.NamedType nm) pv with
      | error e => rw [hwp] at hw; cases hw
      | ok body =>
        rw [hwp] at hw
        dsimp only at hw
        cases hw
        have hE : PayloadRB defs (.NamedType nm) pv body :=
          (ih m (le_refl m)).1 defs (.NamedType nm) pv body hwd hcpv hwp
        obtain ⟨hts, htl⟩ := classify_ne_stop hcc
        refine ⟨tt, body, rfl, hts, ?_⟩
        intro rest
        have hmem : f ∈ ud.fields := List.mem_of_find?_eq_some hfind
        obtain ⟨k, hfi⟩ := findFieldIdx_of_mem hmem hnd
        obtain ⟨n0, hn0⟩ := unionFieldF_reads ud defs hfi hft hcc hE rest
        refine ⟨n0 + 1, fun n hn => ?_⟩
        obtain ⟨n1, rfl⟩ : ∃ n1, n = n1 + 1 := ⟨n - 1, by omega⟩
        rw [hn0 n1 (by omega), hfn]

/-- Step case for union write methods. -/
theorem stmtB_step (m : Nat) (ih : ∀ k, k ≤ m → AllStmts k) : StmtB (m+1) := by
  intro defs ud fname f pv enc hwd hnd hfind hnl hcpv hw
  rw [writeDefn_succ] at hw
  dsimp only at hw
  cases hchk : checkUnionCases defs ud.fields with
  | error e => rw [hchk] at hw; cases hw
  | ok u =>
    rw [hchk] at hw
    dsimp only at hw
    cases hwc : writeUnionCase m defs ud.fields fname pv with
    | error e => rw [hwc] at hw; cases hw
    | ok body =>
      rw [hwc] at hw
      dsimp only at hw
      cases hw
      obtain ⟨tt, pbody, rfl, hts, hread⟩ :=
        (ih m (le_refl m)).2.1 defs ud fname f pv body hwd hnd hfind hnl hcpv hwc
      intro rest
      obtain ⟨n0, hn0⟩ := hread (Frame.FieldEnd :: Frame.FieldStop :: Frame.StructEnd :: rest)
      refine ⟨n0 + 3, fun n hn => ?_⟩
      obtain ⟨n1, rfl⟩ : ∃ n1, n = n1 + 1 := ⟨n - 1, by omega⟩
      obtain ⟨n2, rfl⟩ : ∃ n2, n1 = n2 + 1 := ⟨n1 - 1, by omega⟩
      obtain ⟨n3, rfl⟩ : ∃ n3, n2 = n3 + 1 := ⟨n2 - 1, by omega⟩
      rw [unionReadF_succ]
      have hstream : ((Frame.StructBegin :: (Frame.FieldBegin tt f.id :: pbody
            ++ [Frame.FieldEnd]) ++ [Frame.FieldStop, Frame.StructEnd]) ++ rest)
          = Frame.StructBegin :: Frame.FieldBegin tt f.id ::
              (pbody ++ Frame.FieldEnd :: Frame.FieldStop :: Frame.StructEnd :: rest) := by
        simp
      rw [hstream]
      dsimp only [rdStructBegin]
      rw [unionLoopF_field _ _ _ _ _ _ _ hts]
      rw [hn0 (n3+1) (by omega)]
      dsimp only [rdFieldEnd]
      rw [unionLoopF_stop]
      dsimp only [rdStructEnd]

/-- Step case for struct write methods. -/
theorem stmtA_step (m : Nat) (ih : ∀ k, k ≤ m → AllStmts k) : StmtA (m+1) := by
  intro defs sd slots enc hwd hnd hcs hw
  rw [writeDefn_succ] at hw
  dsimp only at hw
  cases hwf : writeFields m defs sd.fields slots with
  | error e => rw [hwf] at hw; cases hw
  | ok body =>
    rw [hwf] at hw
    dsimp only at hw
    cases hw
    intro rest
    have hC := (ih m (le_refl m)).2.2.2.2.1 defs sd [] sd.fields slots body hwd hnd
      (by simp) hcs hwf
    have hobj : ∀ j, ([] : List Field).length ≤ j →
        j < (sd.fields.map (fun _ => (none : Option Value))).length →
        (sd.fields.map (fun _ => (none : Option Value)))[j]? = some none := by
      intro j _ hj
      rw [List.length_map] at hj
      simp [List.getElem?_replicate, hj]
    have hiss : ∀ j, ([] : List Field).length ≤ j →
        j < (sd.fields.map (fun _ => false)).length →
        (sd.fields.map (fun _ => false))[j]? = some false := by
      intro j _ hj
      rw [List.length_map] at hj
      simp [List.getElem?_replicate, hj]
    obtain ⟨n0, hn0⟩ := hC (sd.fields.map (fun _ => none)) (sd.fields.map (fun _ => false))
      (by simp) (by simp) hobj hiss (.StructEnd :: rest)
    refine ⟨n0 + 1, fun n hn => ?_⟩
    obtain ⟨n1, rfl⟩ : ∃ n1, n = n1 + 1 := ⟨n - 1, by omega⟩
    rw [structReadF_succ]
    have hstream : ((Frame.StructBegin :: body ++ [Frame.FieldStop, Frame.StructEnd]) ++ rest)
        = Frame.StructBegin :: (body ++ Frame.FieldStop :: Frame.StructEnd :: rest) := by
      simp
    rw [hstream]
    dsimp only [rdStructBegin]
    rw [hn0 n1 (by omega)]
    simp [rdStructEnd, validateOk_of_conf hcs]

/-- One-step unfolding of `writeFields` at positive fuel. -/
theorem writeFields_succ (n : Nat) (defs : DefsMap) (fields : List Field)
    (slots : List (Option Value)) :
    writeFields (n+1) defs fields slots =
      (match fields, slots with
      | [], [] => .ok []
      | f :: fs, slot :: ss =>
        match writeField1 n defs f slot with
        | .error e => .error e
        | .ok head =>
          match writeFields n defs fs ss with
          | .error e => .error e
          | .ok tail => .ok (head ++ tail)
      | _, _ => .error .shapeError) := rfl

/-- One-step unfolding of `writeField1` at positive fuel. -/
theorem writeField1_succ (n : Nat) (defs : DefsMap) (f : Field) (slot : Option Value) :
    writeField1 (n+1) defs f slot =
      (match f.type with
      | .ListType elemT =>
        match classify_list_elem_type elemT defs with
        | .error e => .error e
        | .ok (ett, eIsEnum) =>
          match checkPayloadCmd ett eIsEnum with
          | .error e => .error e
          | .ok _ =>
            match slot with
            | none => if f.required then .error .shapeError else .ok []
            | some (.vList items) =>
              match writeListItems n defs elemT items with
              | .error e => .error e
              | .ok body =>
                .ok (.FieldBegin .LIST f.id :: .ListBegin ett items.length :: body
                  ++ [.ListEnd, .FieldEnd])
            | some _ => .error .shapeError
      | .NamedType _ =>
        match classify_type f.type defs with
        | .error e => .error e
        | .ok (tt, isEnum) =>
          match checkPayloadCmd tt isEnum with
          | .error e => .error e
          | .ok _ =>
            match slot with
            | none => if f.required then .error .shapeError else .ok []
            | some v =>
              match writePayload n defs f.type v with
              | .error e => .error e
              | .ok body => .ok (.FieldBegin tt f.id :: body ++ [.FieldEnd])) := rfl

/-- Step case for the field-write sequence of a struct suffix. -/
theorem stmtC_step (m : Nat) (ih : ∀ k, k ≤ m → AllStmts k) : StmtC (m+1) := by
  intro defs sd pre flds slots enc hwd hnd hdecomp hcs hw
  cases hcs with
  | nil =>
    rw [writeFields_succ] at hw
    dsimp only at hw
    cases hw
    intro obj isset hlo hli hobj hiss rest
    refine ⟨1, fun n hn => ?_⟩
    obtain ⟨n1, rfl⟩ : ∃ n1, n = n1 + 1 := ⟨n - 1, by omega⟩
    have hple : obj.length ≤ pre.length := by rw [hlo, hdecomp]; simp
    have hple2 : isset.length ≤ pre.length := by rw [hli, hdecomp]; simp
    simp [structLoopF_stop, List.take_of_length_le hple, List.take_of_length_le hple2]
  | consSome f fs v ss hcv hcs2 =>
    cases m with
    | zero =>
      rw [writeFields_succ] at hw
      dsimp only at hw
      cases hw1 : writeField1 0 defs f (some v) with
      | error e => rw [hw1] at hw; cases hw
      | ok head => cases hw1
    | succ m2 =>
      rw [writeFields_succ] at hw
      dsimp only at hw
      cases hw1 : writeField1 (m2+1) defs f (some v) with
      | error e => rw [hw1] at hw; cases hw
      | ok head =>
        rw [hw1] at hw
        dsimp only at hw
        cases hwl : writeFields (m2+1) defs fs ss with
        | error e => rw [hwl] at hw; cases hw
        | ok tail =>
          rw [hwl] at hw
          dsimp only at hw
          cases hw
          intro obj isset hlo hli hobj hiss rest
          have hndp : NodupIds (pre ++ f :: fs) := hdecomp ▸ hnd
          have hfi : findFieldIdx sd.fields f.id = some (pre.length, f) := by
            rw [hdecomp]; exact findFieldIdx_of_decomp hndp
          have hlen1 : pre.length < obj.length := by
            rw [hlo, hdecomp, List.length_append, List.length_cons]; omega
          have hlen2 : pre.length < isset.length := by
            rw [hli, hdecomp, List.length_append, List.length_cons]; omega
          have hl3 : (pre ++ [f]).length = pre.length + 1 := by simp
          have hC2 := (ih (m2+1) (le_refl _)).2.2.2.2.1 defs sd (pre ++ [f]) fs ss tail hwd hnd
            (by rw [hdecomp]; simp) hcs2 hwl
          have hC2i := hC2 (obj.set pre.length (some v)) (isset.set pre.length true)
            (by rw [List.length_set]; exact hlo)
            (by rw [List.length_set]; exact hli)
            (by
              intro j hj hjl
              rw [hl3] at hj
              rw [List.length_set] at hjl
              rw [List.getElem?_set_ne (by omega)]
              exact hobj j (by omega) hjl)
            (by
              intro j hj hjl
              rw [hl3] at hj
              rw [List.length_set] at hjl
              rw [List.getElem?_set_ne (by omega)]
              exact hiss j (by omega) hjl)
            rest
          have htko : (obj.set pre.length (some v)).take (pre.length + 1)
              = obj.take pre.length ++ [some v] := take_succ_set obj pre.length (some v) hlen1
          have htki : (isset.set pre.length true).take (pre.length + 1)
              = isset.take pre.length ++ [true] := take_succ_set isset pre.length true hlen2
          cases hft : f.type with
          | NamedType nm =>
            rw [writeField1_succ, hft] at hw1
            dsimp only at hw1
            cases hcc : classify_type (.NamedType nm) defs with
            | error e => rw [hcc] at hw1; cases hw1
            | ok p =>
              obtain ⟨tt, ie⟩ := p
              rw [hcc] at hw1
              dsimp only at hw1
              cases hcp : checkPayloadCmd tt ie with
              | error e => rw [hcp] at hw1; cases hw1
              | ok u =>
                rw [hcp] at hw1
                dsimp only at hw1
                cases hwp : writePayload m2 defs (.NamedType nm) v with
                | error e => rw [hwp] at hw1; cases hw1
                | ok body =>
                  rw [hwp] at hw1
                  dsimp only at hw1
                  cases hw1
                  have hcv2 : ConfT defs (.NamedType nm) v := hft ▸ hcv
                  have hE : PayloadRB defs (.NamedType nm) v body :=
                    (ih m2 (by omega)).1 defs (.NamedType nm) v body hwd hcv2 hwp
                  obtain ⟨hts, _⟩ := classify_ne_stop hcc
                  obtain ⟨nf, hnf⟩ := structFieldF_reads sd defs obj isset hfi hft hcc hE
                    (Frame.FieldEnd :: (tail ++ Frame.FieldStop :: rest))
                  obtain ⟨nl, hnl2⟩ := hC2i
                  refine ⟨nf + nl + 2, fun n hn => ?_⟩
                  obtain ⟨n1, rfl⟩ : ∃ n1, n = n1 + 1 := ⟨n - 1, by omega⟩
                  have hstream : (((Frame.FieldBegin tt f.id :: body ++ [Frame.FieldEnd]) ++ tail)
                        ++ Frame.FieldStop :: rest)
                      = Frame.FieldBegin tt f.id ::
                          (body ++ Frame.FieldEnd :: (tail ++ Frame.FieldStop :: rest)) := by
                    simp
                  rw [hstream, structLoopF_field _ _ _ _ _ _ _ _ hts]
                  obtain ⟨n2, rfl⟩ : ∃ n2, n1 = n2 + 1 := ⟨n1 - 1, by omega⟩
                  rw [hnf n2 (by omega)]
                  simp only [rdFieldEnd]
                  rw [hnl2 (n2+1) (by omega)]
                  rw [hl3, htko, htki]
                  simp
          | ListType elemT =>
            rw [writeField1_succ, hft] at hw1
            dsimp only at hw1
            cases hcc : classify_list_elem_type elemT defs with
            | error e => rw [hcc] at hw1; cases hw1
            | ok p =>
              obtain ⟨ett, eie⟩ := p
              rw [hcc] at hw1
              dsimp only at hw1
              cases hcp : checkPayloadCmd ett eie with
              | error e => rw [hcp] at hw1; cases hw1
              | ok u =>
                rw [hcp] at hw1
                dsimp only at hw1
                have hcv2 : ConfT defs (.ListType elemT) v := hft ▸ hcv
                cases hcv2 with
                | listC elemT items hci =>
                  dsimp only at hw1
                  cases hwli : writeListItems m2 defs elemT items with
                  | error e => rw [hwli] at hw1; cases hw1
                  | ok body =>
                    rw [hwli] at hw1
                    dsimp only at hw1
                    cases hw1
                    have hD := (ih m2 (by omega)).2.2.2.2.2 defs elemT items body hwd hci hwli
                    obtain ⟨nd, hnd2⟩ := hD []
                      (Frame.ListEnd :: Frame.FieldEnd :: (tail ++ Frame.FieldStop :: rest))
                    obtain ⟨nl, hnl2⟩ := hC2i
                    refine ⟨nd + nl + 2, fun n hn => ?_⟩
                    obtain ⟨n1, rfl⟩ : ∃ n1, n = n1 + 1 := ⟨n - 1, by omega⟩
                    have hstream : (((Frame.FieldBegin .LIST f.id ::
                          Frame.ListBegin ett items.length :: body
                          ++ [Frame.ListEnd, Frame.FieldEnd]) ++ tail) ++ Frame.FieldStop :: rest)
                        = Frame.FieldBegin .LIST f.id :: Frame.ListBegin ett items.length ::
                            (body ++ Frame.ListEnd :: Frame.FieldEnd ::
                              (tail ++ Frame.FieldStop :: rest)) := by
                      simp
                    rw [hstream, structLoopF_field _ _ _ _ _ _ _ _ (by decide)]
                    obtain ⟨n2, rfl⟩ : ∃ n2, n1 = n2 + 1 := ⟨n1 - 1, by omega⟩
                    unfold structFieldF
                    rw [hfi]
                    dsimp only
                    rw [hft]
                    dsimp only
                    rw [if_pos rfl]
                    simp only [rdListBegin]
                    rw [hnd2 n2 (by omega)]
                    simp only [rdListEnd, List.nil_append, rdFieldEnd]
                    rw [hnl2 (n2+1) (by omega)]
                    rw [hl3, htko, htki]
                    simp
  | consNone f fs ss hreq hcs2 =>
    cases m with
    | zero =>
      rw [writeFields_succ] at hw
      dsimp only at hw
      cases hw1 : writeField1 0 defs f none with
      | error e => rw [hw1] at hw; cases hw
      | ok head => cases hw1
    | succ m2 =>
      rw [writeFields_succ] at hw
      dsimp only at hw
      cases hw1 : writeField1 (m2+1) defs f none with
      | error e => rw [hw1] at hw; cases hw
      | ok head =>
        rw [hw1] at hw
        dsimp only at hw
        cases hwl : writeFields (m2+1) defs fs ss with
        | error e => rw [hwl] at hw; cases hw
        | ok tail =>
          rw [hwl] at hw
          dsimp only at hw
          cases hw
          have hhead : head = [] := by
            rw [writeField1_succ] at hw1
            cases hft : f.type with
            | ListType elemT =>
              rw [hft] at hw1
              dsimp only at hw1
              cases hcc : classify_list_elem_type elemT defs with
              | error e => rw [hcc] at hw1; cases hw1
              | ok p =>
                obtain ⟨ett, eie⟩ := p
                rw [hcc] at hw1
                dsimp only at hw1
                cases hcp : checkPayloadCmd ett eie with
                | error e => rw [hcp] at hw1; cases hw1
                | ok u =>
                  rw [hcp] at hw1
                  dsimp only at hw1
                  rw [hreq] at hw1
                  rw [if_neg (by simp)] at hw1
                  cases hw1
                  rfl
            | NamedType nm =>
              rw [hft] at hw1
              dsimp only at hw1
              cases hcc : classify_type (.NamedType nm) defs with
              | error e => rw [hcc] at hw1; cases hw1
              | ok p =>
                obtain ⟨tt, ie⟩ := p
                rw [hcc] at hw1
                dsimp only at hw1
                cases hcp : checkPayloadCmd tt ie with
                | error e => rw [hcp] at hw1; cases hw1
                | ok u =>
                  rw [hcp] at hw1
                  dsimp only at hw1
                  rw [hreq] at hw1
                  rw [if_neg (by simp)] at hw1
                  cases hw1
                  rfl
          subst hhead
          intro obj isset hlo hli hobj hiss rest
          have hlen1 : pre.length < obj.length := by
            rw [hlo, hdecomp, List.length_append, List.length_cons]; omega
          have hlen2 : pre.length < isset.length := by
            rw [hli, hdecomp, List.length_append, List.length_cons]; omega
          have hl3 : (pre ++ [f]).length = pre.length + 1 := by simp
          have hC2 := (ih (m2+1) (le_refl _)).2.2.2.2.1 defs sd (pre ++ [f]) fs ss tail hwd hnd
            (by rw [hdecomp]; simp) hcs2 hwl
          obtain ⟨nl, hnl2⟩ := hC2 obj isset hlo hli
            (fun j hj hjl => hobj j (by rw [hl3] at hj; omega) hjl)
            (fun j hj hjl => hiss j (by rw [hl3] at hj; omega) hjl)
            rest
          refine ⟨nl, fun n hn => ?_⟩
          have hs2 : (([] ++ tail) ++ Frame.FieldStop :: rest) = tail ++ Frame.FieldStop :: rest := by
            simp
          rw [hs2, hnl2 n hn]
          have hto : obj.take (pre.length + 1) = obj.take pre.length ++ [none] :=
            take_succ_of_getElem obj pre.length none (hobj pre.length (le_refl _) hlen1)
          have hti : isset.take (pre.length + 1) = isset.take pre.length ++ [false] :=
            take_succ_of_getElem isset pre.length false (hiss pre.length (le_refl _) hlen2)
          rw [hl3, hto, hti]
          simp

/-- All duality statements hold at every writer fuel: a successful
write, of a conforming value against well-formed definitions, is read
back verbatim by the generated read code (given enough reader fuel). -/
theorem duality_all (wf : Nat) : AllStmts wf := by
  induction wf using Nat.strong_induction_on with
  | _ wf ih =>
    cases wf with
    | zero => exact duality_zero
    | succ m =>
      have ih2 : ∀ k, k ≤ m → AllStmts k := fun k hk => ih k (by omega)
      exact ⟨stmtE_step m ih2, stmtF_step m ih2, stmtA_step m ih2,
        stmtB_step m ih2, stmtC_step m ih2, stmtD_step m ih2⟩

/-- One-step unfolding of `structLoopF` at positive fuel. -/
theorem structLoopF_succ (n : Nat) (sd : StructDef) (defs : DefsMap)
    (obj : List (Option Value)) (isset : List Bool) (fs : List Frame) :
    structLoopF (n+1) sd defs obj isset fs =
      (match rdFieldBegin fs with
      | .error e => .error e
      | .ok ((tp, fid), r) =>
        if tp = .STOP then .ok (obj, isset, r)
        else
          match structFieldF n sd defs obj isset tp fid r with
          | .error e => .error e
          | .ok (obj2, isset2, r2) =>
            match rdFieldEnd r2 with
            | .error e => .error e
            | .ok r3 => structLoopF n sd defs obj2 isset2 r3) := rfl

/-- One-step unfolding of `structFieldF` at positive fuel. -/
theorem structFieldF_succ (n : Nat) (sd : StructDef) (defs : DefsMap)
    (obj : List (Option Value)) (isset : List Bool) (tp : TType) (fid : Int)
    (fs : List Frame) :
    structFieldF (n+1) sd defs obj isset tp fid fs =
      (match findFieldIdx sd.fields fid with
      | none => skipDefaultF n obj isset tp fs
      | some (i, f) =>
        match f.type with
        | .NamedType nm =>
          match BASIC_NAMED_TO_TTYPE nm with
          | some tt =>
            if tt = .STRING then
              if tp = .STRING then
                match rdBinary fs with
                | .error e => .error e
                | .ok (s, r) => .ok (obj.set i (some (.vStr s)), isset.set i true, r)
              else skipDefaultF n obj isset tp fs
            else
              if tp = tt then
                match readBasic tt fs with
                | .error e => .error e
                | .ok (v, r) => .ok (obj.set i (some v), isset.set i true, r)
              else skipDefaultF n obj isset tp fs
          | none =>
            match lookupDef defs nm with
            | some (.enum _) =>
              if tp = .I32 then
                match rdI32 fs with
                | .error e => .error e
                | .ok (k, r) => .ok (obj.set i (some (.vEnum k)), isset.set i true, r)
              else skipDefaultF n obj isset tp fs
            | some (.struct _) =>
              if tp = .STRUCT then
                match readNestedF n defs nm fs with
                | .error e => .error e
                | .ok (some v, r) => .ok (obj.set i (some v), isset.set i true, r)
                | .ok (none, r) => .ok (obj, isset, r)
              else skipDefaultF n obj isset tp fs
            | some (.union _) =>
              if tp = .STRUCT then
                match readNestedF n defs nm fs with
                | .error e => .error e
                | .ok (some v, r) => .ok (obj.set i (some v), isset.set i true, r)
                | .ok (none, r) => .ok (obj, isset, r)
              else skipDefaultF n obj isset tp fs
            | none => skipDefaultF n obj isset tp fs
        | .ListType elemT =>
          if tp = .LIST then
            match rdListBegin fs with
            | .error e => .error e
            | .ok ((_, sz), r) =>
              match readListItemsF n defs elemT sz [] r with
              | .error e => .error e
              | .ok (items, r2) =>
                match rdListEnd r2 with
                | .error e => .error e
                | .ok r3 => .ok (obj.set i (some (.vList items)), isset.set i true, r3)
          else skipDefaultF n obj isset tp fs) := rfl

/-- The default (skip) case leaves the instance and is-set bitmap
untouched. -/
theorem skipDefaultF_unchanged {n : Nat} {obj obj2 : List (Option Value)}
    {isset isset2 : List Bool} {tp : TType} {fs r : List Frame}
    (h : skipDefaultF n obj isset tp fs = .ok (obj2, isset2, r)) :
    obj2 = obj ∧ isset2 = isset := by
  cases n with
  | zero => cases h
  | succ n1 =>
    rw [show skipDefaultF (n1+1) obj isset tp fs =
      (match skipT n1 tp fs with
      | .error e => .error e
      | .ok r => .ok (obj, isset, r)) from rfl] at h
    cases hs : skipT n1 tp fs with
    | error e => rw [hs] at h; cases h
    | ok r2 =>
      rw [hs] at h
      cases h
      exact ⟨rfl, rfl⟩

/-- Setting a slot and its is-set bit together preserves the invariant
that a set bit means a populated slot. -/
theorem inv_set {obj : List (Option Value)} {isset : List Bool} (i : Nat) (v : Value)
    (hlen : obj.length = isset.length)
    (hinv : ∀ (j : Nat), isset[j]? = some true → ∃ w, obj[j]? = some (some w)) :
    ∀ (j : Nat), (isset.set i true)[j]? = some true →
      ∃ w, (obj.set i (some v))[j]? = some (some w) := by
  intro j hj
  by_cases hij : i = j
  · subst hij
    by_cases hi : i < isset.length
    · have hio : i < obj.length := by omega
      refine ⟨v, ?_⟩
      rw [List.getElem?_set_self']
      simp [List.getElem?_eq_getElem hio]
    · have hs1 : isset.set i true = isset := List.set_eq_of_length_le (by omega)
      have hs2 : obj.set i (some v) = obj := List.set_eq_of_length_le (by omega)
      rw [hs1] at hj
      rw [hs2]
      exact hinv i hj
  · rw [List.getElem?_set_ne hij] at hj
    rw [List.getElem?_set_ne hij]
    exact hinv j hj

/-- A successful field dispatch preserves lengths and the bit-implies-
populated invariant. -/
theorem structFieldF_inv (n : Nat) (sd : StructDef) (defs : DefsMap)
    {obj obj2 : List (Option Value)} {isset isset2 : List Bool} {tp : TType} {fid : Int}
    {fs r : List Frame}
    (h : structFieldF n sd defs obj isset tp fid fs = .ok (obj2, isset2, r))
    (hlen : obj.length = isset.length)
    (hinv : ∀ (j : Nat), isset[j]? = some true → ∃ w, obj[j]? = some (some w)) :
    obj2.length = obj.length ∧ isset2.length = isset.length ∧
      (∀ (j : Nat), isset2[j]? = some true → ∃ w, obj2[j]? = some (some w)) := by
  cases n with
  | zero => cases h
  | succ n1 =>
    rw [structFieldF_succ] at h
    repeat' split at h
    all_goals
      try (obtain ⟨h1, h2⟩ := skipDefaultF_unchanged h; subst h1; subst h2; exact ⟨rfl, rfl, hinv⟩)
    all_goals cases h
    all_goals try exact ⟨rfl, rfl, hinv⟩
    all_goals exact ⟨by simp, by simp, inv_set _ _ hlen hinv⟩

/-- The field loop preserves lengths and the bit-implies-populated
invariant. -/
theorem structLoopF_inv (n : Nat) (sd : StructDef) (defs : DefsMap) :
    ∀ (obj : List (Option Value)) (isset : List Bool) (fs : List Frame)
      (obj2 : List (Option Value)) (isset2 : List Bool) (r : List Frame),
    structLoopF n sd defs obj isset fs = .ok (obj2, isset2, r) →
    obj.length = isset.length →
    (∀ (j : Nat), isset[j]? = some true → ∃ w, obj[j]? = some (some w)) →
    obj2.length = obj.length ∧ isset2.length = isset.length ∧
      (∀ (j : Nat), isset2[j]? = some true → ∃ w, obj2[j]? = some (some w)) := by
  induction n with
  | zero => intro _ _ _ _ _ _ h _ _; cases h
  | succ n1 ih =>
    intro obj isset fs obj2 isset2 r h hlen hinv
    rw [structLoopF_succ] at h
    cases hfb : rdFieldBegin fs with
    | error e => rw [hfb] at h; cases h
    | ok p =>
      obtain ⟨⟨tp, fid⟩, r1⟩ := p
      rw [hfb] at h
      dsimp only at h
      by_cases hstop : tp = .STOP
      · rw [if_pos hstop] at h
        cases h
        exact ⟨rfl, rfl, hinv⟩
      · rw [if_neg hstop] at h
        cases hff : structFieldF n1 sd defs obj isset tp fid r1 with
        | error e => rw [hff] at h; cases h
        | ok q =>
          obtain ⟨o2, i2, r2⟩ := q
          rw [hff] at h
          dsimp only at h
          cases hfe : rdFieldEnd r2 with
          | error e => rw [hfe] at h; cases h
          | ok r3 =>
            rw [hfe] at h
            dsimp only at h
            obtain ⟨hl1, hl2, hinv2⟩ := structFieldF_inv n1 sd defs hff hlen hinv
            obtain ⟨hl1b, hl2b, hinvb⟩ := ih o2 i2 r3 obj2 isset2 r h (by omega) hinv2
            exact ⟨by omega, by omega, hinvb⟩

/-- A true validation result forces every required field's is-set bit. -/
theorem validateOk_required :
    ∀ (fields : List Field) (isset : List Bool), validateOk fields isset = true →
      isset.length = fields.length →
      ∀ (j : Nat) (f : Field), fields[j]? = some f → f.required = true → isset[j]? = some true := by
  intro fields
  induction fields with
  | nil =>
    intro isset _ _ j f hj
    rw [List.getElem?_nil] at hj
    cases hj
  | cons g gs ih =>
    intro isset hval hlen j f hj hreq
    cases isset with
    | nil => simp at hlen
    | cons b bs =>
      rw [show validateOk (g :: gs) (b :: bs) =
        (if g.required && !b then false else validateOk gs bs) from rfl] at hval
      by_cases hc : (g.required && !b) = true
      · rw [if_pos hc] at hval; cases hval
      · rw [if_neg hc] at hval
        cases j with
        | zero =>
          rw [List.getElem?_cons_zero] at hj
          cases hj
          have hb : b = true := by
            cases b with
            | false => exact absurd (by rw [hreq]; rfl) hc
            | true => rfl
          rw [hb]
          simp
        | succ j1 =>
          rw [List.getElem?_cons_succ] at hj
          rw [List.getElem?_cons_succ]
          exact ih bs hval (by simpa using hlen) j1 f hj hreq

/-- Validation fails on the all-false bitmap when some field is
required. -/
theorem validateOk_false_of_required :
    ∀ (fields : List Field), (∃ f ∈ fields, f.required = true) →
      validateOk fields (fields.map (fun _ => false)) = false := by
  intro fields
  induction fields with
  | nil =>
    intro hex
    obtain ⟨f, hf, _⟩ := hex
    cases hf
  | cons g gs ih =>
    intro hex
    obtain ⟨f, hf, hreq⟩ := hex
    rw [show (g :: gs).map (fun _ => false) = false :: gs.map (fun _ => false) from rfl]
    rw [show validateOk (g :: gs) (false :: gs.map (fun _ => false)) =
      (if g.required && !false then false else validateOk gs (gs.map (fun _ => false)))
      from rfl]
    by_cases hg : g.required = true
    · rw [if_pos (by rw [hg]; rfl)]
    · have hg2 : g.required = false := by
        cases hgr : g.required with
        | false => rfl
        | true => exact absurd hgr hg
      rw [if_neg (by simp [hg2])]
      cases List.mem_cons.mp hf with
      | inl heq => exact absurd (heq ▸ hreq) hg
      | inr hm => exact ih ⟨f, hm, hreq⟩

/-- Claim C2: the struct read method emitted by the generator checks,
after the field loop and the structure-end marker, that every required
field's is-set bit is true, failing with the required-field-missing
error otherwise.  Part one: a successful decode populates every field
declared required — it never returns an instance with a required field
missing.  Part two: decoding an encoding containing no fields at all,
against a struct declaring a required field, fails with exactly the
required-field-missing error. -/
theorem c2_required_field_enforced :
    (∀ (n : Nat) (sd : StructDef) (defs : DefsMap) (fs : List Frame)
        (slots : List (Option Value)) (r : List Frame),
      structReadF n sd defs fs = .ok (slots, r) →
      ∀ (j : Nat) (f : Field), sd.fields[j]? = some f → f.required = true →
        ∃ v, slots[j]? = some (some v)) ∧
    (∀ (n : Nat) (sd : StructDef) (defs : DefsMap) (rest : List Frame),
      (∃ f ∈ sd.fields, f.required = true) →
      structReadF (n+2) sd defs (.StructBegin :: .FieldStop :: .StructEnd :: rest) =
        .error (.requiredFieldMissing rest)) := by
  constructor
  · intro n sd defs fs slots r h j f hj hreq
    cases n with
    | zero => cases h
    | succ n1 =>
      rw [structReadF_succ] at h
      cases hsb : rdStructBegin fs with
      | error e => rw [hsb] at h; cases h
      | ok r1 =>
        rw [hsb] at h
        dsimp only at h
        cases hlp : structLoopF n1 sd defs (sd.fields.map (fun _ => none))
            (sd.fields.map (fun _ => false)) r1 with
        | error e => rw [hlp] at h; cases h
        | ok q =>
          obtain ⟨obj2, isset2, r2⟩ := q
          rw [hlp] at h
          dsimp only at h
          cases hse : rdStructEnd r2 with
          | error e => rw [hse] at h; cases h
          | ok r3 =>
            rw [hse] at h
            dsimp only at h
            by_cases hv : validateOk sd.fields isset2 = true
            · rw [if_pos hv] at h
              cases h
              obtain ⟨hl1, hl2, hinv⟩ := structLoopF_inv n1 sd defs _ _ _ _ _ _ hlp
                (by simp)
                (by
                  intro j2 hj2
                  rw [show sd.fields.map (fun _ => (false : Bool))
                    = List.replicate sd.fields.length false from by simp] at hj2
                  rw [List.getElem?_replicate] at hj2
                  split at hj2 <;> simp at hj2)
              have hlen2 : isset2.length = sd.fields.length := by
                rw [hl2]; simp
              have hbit := validateOk_required sd.fields isset2 hv hlen2 j f hj hreq
              exact hinv j hbit
            · rw [if_neg hv] at h
              cases h
  · intro n sd defs rest hreq
    rw [structReadF_succ]
    dsimp only [rdStructBegin]
    rw [structLoopF_stop]
    dsimp only [rdStructEnd]
    rw [if_neg (by rw [validateOk_false_of_required sd.fields hreq]; simp)]

/-- Witness for `c2_required_field_enforced`: the struct
`struct Point \x7b 1: required i32 x; 2: required i32 y \x7d`.  Its field `x`
is populated in the successfully decoded instance, and decoding an
empty encoding fails with the required-field-missing error. -/
theorem c2_required_field_enforced_witness :
    (∃ v, ([some (Value.vI32 3), some (Value.vI32 4)] : List (Option Value))[0]? =
      some (some v)) ∧
    structReadF 2 ⟨"Point", [⟨1, true, .NamedType "i32", "x", none⟩,
        ⟨2, true, .NamedType "i32", "y", none⟩]⟩ []
      [.StructBegin, .FieldStop, .StructEnd] = .error (.requiredFieldMissing []) :=
  ⟨c2_required_field_enforced.1 5
    ⟨"Point", [⟨1, true, .NamedType "i32", "x", none⟩,
      ⟨2, true, .NamedType "i32", "y", none⟩]⟩ []
    [.StructBegin, .FieldBegin .I32 1, .FI32 3, .FieldEnd,
     .FieldBegin .I32 2, .FI32 4, .FieldEnd, .FieldStop, .StructEnd]
    [some (.vI32 3), some (.vI32 4)] [] rfl 0
    ⟨1, true, .NamedType "i32", "x", none⟩ rfl rfl,
   c2_required_field_enforced.2 0
    ⟨"Point", [⟨1, true, .NamedType "i32", "x", none⟩,
      ⟨2, true, .NamedType "i32", "y", none⟩]⟩ [] []
    ⟨⟨1, true, .NamedType "i32", "x", none⟩, by simp, rfl⟩⟩

/-- Claim C3 (amended round-trip law): for every definition and every
value conforming to that definition's shape (conformance excludes union
values holding a list alternative, which do not round-trip — see the
counterexample), a successful write is decoded back to exactly that
value by the generated read method, for every sufficiently large reader
fuel, consuming exactly the written frames. -/
theorem c3_roundtrip (defs : DefsMap) (d : Defn) (v : Value) (enc : List Frame) (wf : Nat)
    (hwd : WellDefs defs) (hnd : NodupIds (defnFields d)) (hc : ConfDefn defs d v)
    (hw : writeDefn wf defs d v = .ok enc) :
    ∀ rest, ∃ n0, ∀ n, n0 ≤ n → readDefn n defs d (enc ++ rest) = .ok (v, rest) := by
  cases wf with
  | zero => cases hw
  | succ m =>
    cases d with
    | enum ed =>
      rw [writeDefn_succ] at hw
      dsimp only at hw
      cases hw
    | struct sd =>
      cases v with
      | vStruct slots =>
        intro rest
        obtain ⟨n0, hn0⟩ := (duality_all (m+1)).2.2.1 defs sd slots enc hwd hnd hc hw rest
        refine ⟨n0, fun n hn => ?_⟩
        show (match structReadF n sd defs (enc ++ rest) with
          | Except.error e => Except.error e
          | Except.ok (sl, r) => Except.ok (Value.vStruct sl, r)) =
            Except.ok (Value.vStruct slots, rest)
        rw [hn0 n hn]
      | vBool b => exact hc.elim
      | vI8 a => exact hc.elim
      | vI16 a => exact hc.elim
      | vI32 a => exact hc.elim
      | vI64 a => exact hc.elim
      | vStr s => exact hc.elim
      | vEnum k => exact hc.elim
      | vUnion s p => exact hc.elim
      | vList l => exact hc.elim
    | union ud =>
      cases v with
      | vUnion fname pv =>
        obtain ⟨f, hfind, hnl, hcpv⟩ := hc
        intro rest
        obtain ⟨n0, hn0⟩ := (duality_all (m+1)).2.2.2.1 defs ud fname f pv enc
          hwd hnd hfind hnl hcpv hw rest
        exact ⟨n0, fun n hn => hn0 n hn⟩
      | vBool b => exact hc.elim
      | vI8 a => exact hc.elim
      | vI16 a => exact hc.elim
      | vI32 a => exact hc.elim
      | vI64 a => exact hc.elim
      | vStr s => exact hc.elim
      | vEnum k => exact hc.elim
      | vStruct sl => exact hc.elim
      | vList l => exact hc.elim

/-- Claim C3 (counterexample to the unrestricted round-trip law): for
the union `union W \x7b 1: list<i32> xs \x7d` holding `xs = [1, 2]` — a
two-element list of a supported element kind — the write method
succeeds, emitting only begin/stop/end framing, but the read method
fails with the cannot-parse-union error instead of returning the value:
read after write is not the identity on this value. -/
theorem c3_counterexample :
    writeDefn 5 [("W", .union ⟨"W", [⟨1, false, .ListType (.NamedType "i32"), "xs", none⟩]⟩)]
        (.union ⟨"W", [⟨1, false, .ListType (.NamedType "i32"), "xs", none⟩]⟩)
        (.vUnion "xs" (.vList [.vI32 1, .vI32 2])) =
      .ok [.StructBegin, .FieldStop, .StructEnd] ∧
    readDefn 5 [("W", .union ⟨"W", [⟨1, false, .ListType (.NamedType "i32"), "xs", none⟩]⟩)]
        (.union ⟨"W", [⟨1, false, .ListType (.NamedType "i32"), "xs", none⟩]⟩)
        [.StructBegin, .FieldStop, .StructEnd] =
      .error (.cantParseUnion []) :=
  ⟨rfl, rfl⟩

/-- Witness for `c3_roundtrip`: the struct
`struct Point \x7b 1: required i32 x; 2: required i32 y \x7d` holding
`(3, 4)` round-trips through its written frames. -/
theorem c3_roundtrip_witness :
    ∃ n0, ∀ n, n0 ≤ n →
      readDefn n [("Point", .struct ⟨"Point", [⟨1, true, .NamedType "i32", "x", none⟩,
          ⟨2, true, .NamedType "i32", "y", none⟩]⟩)]
        (.struct ⟨"Point", [⟨1, true, .NamedType "i32", "x", none⟩,
          ⟨2, true, .NamedType "i32", "y", none⟩]⟩)
        ([.StructBegin, .FieldBegin .I32 1, .FI32 3, .FieldEnd,
          .FieldBegin .I32 2, .FI32 4, .FieldEnd, .FieldStop, .StructEnd] ++ []) =
      .ok (.vStruct [some (.vI32 3), some (.vI32 4)], []) :=
  c3_roundtrip
    [("Point", .struct ⟨"Point", [⟨1, true, .NamedType "i32", "x", none⟩,
      ⟨2, true, .NamedType "i32", "y", none⟩]⟩)]
    (.struct ⟨"Point", [⟨1, true, .NamedType "i32", "x", none⟩,
      ⟨2, true, .NamedType "i32", "y", none⟩]⟩)
    (.vStruct [some (.vI32 3), some (.vI32 4)])
    [.StructBegin, .FieldBegin .I32 1, .FI32 3, .FieldEnd,
     .FieldBegin .I32 2, .FI32 4, .FieldEnd, .FieldStop, .StructEnd]
    5
    (by intro p hp; rw [List.mem_singleton] at hp; subst hp; unfold NodupIds; decide)
    (by unfold NodupIds; decide)
    (ConfSlots.consSome _ _ _ _ _ (ConfT.i32 _ 3)
      (ConfSlots.consSome _ _ _ _ _ (ConfT.i32 _ 4) (ConfSlots.nil _)))
    rfl []

/-- Claim C1 (amended): the union read method the generator emits is
**last**-field-wins, not first-field-wins: when an encoded union carries
two field entries that each match a declared alternative, the generated
loop lets the later decoded value replace the earlier one, and the read
returns the value of the last matching field. -/
theorem c1_last_field_wins (defs : DefsMap) (ud : UnionDef) (wf : Nat)
    (fnameA fnameB : String) (fA fB : Field) (pvA pvB : Value) (eA eB : List Frame)
    (hwd : WellDefs defs) (hnd : NodupIds ud.fields)
    (hfindA : ud.fields.find? (fun g => g.name = fnameA) = some fA)
    (hnlA : isListTy fA.type = false) (hcA : ConfT defs fA.type pvA)
    (hwA : writeUnionCase wf defs ud.fields fnameA pvA = .ok eA)
    (hfindB : ud.fields.find? (fun g => g.name = fnameB) = some fB)
    (hnlB : isListTy fB.type = false) (hcB : ConfT defs fB.type pvB)
    (hwB : writeUnionCase wf defs ud.fields fnameB pvB = .ok eB) :
    ∀ rest, ∃ n0, ∀ n, n0 ≤ n →
      unionReadF n ud defs
          (.StructBegin :: (eA ++ (eB ++ .FieldStop :: .StructEnd :: rest))) =
        .ok (.vUnion fnameB pvB, rest) := by
  obtain ⟨ttA, pA, rfl, htsA, hreadA⟩ :=
    (duality_all wf).2.1 defs ud fnameA fA pvA eA hwd hnd hfindA hnlA hcA hwA
  obtain ⟨ttB, pB, rfl, htsB, hreadB⟩ :=
    (duality_all wf).2.1 defs ud fnameB fB pvB eB hwd hnd hfindB hnlB hcB hwB
  intro rest
  obtain ⟨nB, hnB⟩ := hreadB (Frame.FieldEnd :: Frame.FieldStop :: Frame.StructEnd :: rest)
  obtain ⟨nA, hnA⟩ := hreadA (Frame.FieldEnd ::
    ((Frame.FieldBegin ttB fB.id :: pB ++ [Frame.FieldEnd]) ++
      Frame.FieldStop :: Frame.StructEnd :: rest))
  refine ⟨nA + nB + 4, fun n hn => ?_⟩
  obtain ⟨n1, rfl⟩ : ∃ n1, n = n1 + 1 := ⟨n - 1, by omega⟩
  obtain ⟨n2, rfl⟩ : ∃ n2, n1 = n2 + 1 := ⟨n1 - 1, by omega⟩
  obtain ⟨n3, rfl⟩ : ∃ n3, n2 = n3 + 1 := ⟨n2 - 1, by omega⟩
  obtain ⟨n4, rfl⟩ : ∃ n4, n3 = n4 + 1 := ⟨n3 - 1, by omega⟩
  rw [unionReadF_succ]
  dsimp only [rdStructBegin]
  have hsA : ((Frame.FieldBegin ttA fA.id :: pA ++ [Frame.FieldEnd]) ++
        ((Frame.FieldBegin ttB fB.id :: pB ++ [Frame.FieldEnd]) ++
          Frame.FieldStop :: Frame.StructEnd :: rest))
      = Frame.FieldBegin ttA fA.id :: (pA ++ Frame.FieldEnd ::
          ((Frame.FieldBegin ttB fB.id :: pB ++ [Frame.FieldEnd]) ++
            Frame.FieldStop :: Frame.StructEnd :: rest)) := by
    simp
  rw [hsA, unionLoopF_field _ _ _ _ _ _ _ htsA]
  rw [hnA (n4+2) (by omega)]
  dsimp only [rdFieldEnd]
  have hsB : ((Frame.FieldBegin ttB fB.id :: pB ++ [Frame.FieldEnd]) ++
        Frame.FieldStop :: Frame.StructEnd :: rest)
      = Frame.FieldBegin ttB fB.id ::
          (pB ++ Frame.FieldEnd :: Frame.FieldStop :: Frame.StructEnd :: rest) := by
    simp
  rw [hsB, unionLoopF_field _ _ _ _ _ _ _ htsB]
  rw [hnB (n4+1) (by omega)]
  dsimp only [rdFieldEnd]
  rw [unionLoopF_stop]
  dsimp only [rdStructEnd]

/-- Claim C1 (counterexample to first-field-wins): decoding the union
`union U \x7b 1: i32 x \x7d` from an encoding carrying `x = 1` and then
`x = 2` — two wire fields whose id and wire type both match the declared
alternative — returns the value of the **second** field, not the first. -/
theorem c1_counterexample :
    unionReadF 5 ⟨"U", [⟨1, false, .NamedType "i32", "x", none⟩]⟩ []
      [.StructBegin, .FieldBegin .I32 1, .FI32 1, .FieldEnd,
       .FieldBegin .I32 1, .FI32 2, .FieldEnd, .FieldStop, .StructEnd] =
      .ok (.vUnion "x" (.vI32 2), []) ∧
    (Value.vUnion "x" (.vI32 2)) ≠ (Value.vUnion "x" (.vI32 1)) :=
  ⟨rfl, by simp⟩

/-- Witness for `c1_last_field_wins`: the union `union U \x7b 1: i32 x \x7d`
with the case `x = 1` written first and `x = 2` written second decodes
to `x = 2`. -/
theorem c1_last_field_wins_witness :
    ∃ n0, ∀ n, n0 ≤ n →
      unionReadF n ⟨"U", [⟨1, false, .NamedType "i32", "x", none⟩]⟩
          [("U", .union ⟨"U", [⟨1, false, .NamedType "i32", "x", none⟩]⟩)]
          (.StructBegin :: ([.FieldBegin .I32 1, .FI32 1, .FieldEnd] ++
            ([.FieldBegin .I32 1, .FI32 2, .FieldEnd] ++
              .FieldStop :: .StructEnd :: []))) =
        .ok (.vUnion "x" (.vI32 2), []) :=
  c1_last_field_wins
    [("U", .union ⟨"U", [⟨1, false, .NamedType "i32", "x", none⟩]⟩)]
    ⟨"U", [⟨1, false, .NamedType "i32", "x", none⟩]⟩ 3 "x" "x"
    ⟨1, false, .NamedType "i32", "x", none⟩ ⟨1, false, .NamedType "i32", "x", none⟩
    (.vI32 1) (.vI32 2)
    [.FieldBegin .I32 1, .FI32 1, .FieldEnd] [.FieldBegin .I32 1, .FI32 2, .FieldEnd]
    (by intro p hp; rw [List.mem_singleton] at hp; subst hp; unfold NodupIds; decide)
    (by unfold NodupIds; decide)
    rfl rfl (ConfT.i32 _ 1) rfl
    rfl rfl (ConfT.i32 _ 2) rfl []

end ThriftPoc
